import Mathlib

/-!
# Verification of the lox-v2 bytecode compiler and VM

A shallow embedding, in Lean 4, of the core data structures and operations of
the lox-v2 interpreter (a Rust implementation of the clox bytecode
compiler/VM), together with proofs and refutations of a list of claims about
its behaviour.

Embedding conventions:
* Byte strings (`&str`, `String`, `&[u8]`) are `List Nat` with entries < 256.
* Machine integers (`u32`, `u8`, `usize`) are `Nat`, with `% 2 ^ 32` inserted
  exactly where the Rust code wraps (`wrapping_mul`).
* `f64` is modelled by `Rat`.  None of the claims treated here depends on
  IEEE-754 rounding, infinities or NaN; the model's `+`, `-`, `*`, `/` stand
  for the corresponding IEEE operations.
* Raw pointers `*mut ObjString` are modelled by the pointee record itself
  tagged with an allocation identifier `id`; pointer equality is record
  equality (distinct allocations always have distinct `id`s, which theorem
  hypotheses state where relevant).  A null pointer is `Option.none`.
* Fallible or possibly diverging loops are embedded with explicit fuel and
  return `Option`, where `none` means the loop did not finish (which for the
  loops in this file happens exactly when the Rust loop never exits).
* Rust panics (`unwrap`, `expect`, array overrun) are modelled by a dedicated
  `panic` result constructor or by `Option` as noted at each definition.
-/

namespace LoxV2

/-! ## Objects and values (src/object.rs, src/value.rs)

`ObjString` models the heap record `ObjString { obj, str, hash }`; the `id`
field stands for the allocation address, so that two `ObjString` values are
equal exactly when the two Rust pointers are equal.  The `Object` header and
`ObjectKind` tag are not carried separately: `String` is the only object kind
in the source, so every `*mut Object` points to an `ObjString`. -/

structure ObjString where
  id : Nat
  str : List Nat
  hash : Nat
deriving DecidableEq, Repr

/-- Modelled from the spec: the `Value` enum of the current tree
(src/value.rs in the snapshot lacks the `Object` variant that src/vm.rs,
src/table.rs and src/compiler.rs use; §3 of the spec gives the four cases).
`number` carries `Rat` in place of `f64`. -/
inductive Value where
  | nil
  | bool (b : Bool)
  | number (n : Rat)
  | object (obj : ObjString)
deriving DecidableEq, Repr

/-- `Value::default()` is `Value::Nil` (the `#[default]` attribute). -/
def Value.default : Value := Value.nil

/-- `Value::is_falsey`. -/
def Value.is_falsey : Value → Bool
  | Value.nil => true
  | Value.bool false => true
  | _ => false

/-! ## FNV-1a hash (src/table.rs, `hash`) -/

/-- `hash` from src/table.rs lines 164-171: FNV-1a over the bytes, with
`u32` wrap-around (`wrapping_mul`) made explicit as `% 2 ^ 32`.  The xor of
two numbers below `2 ^ 32` is below `2 ^ 32`, so reducing after the multiply
is exactly the u32 behaviour. -/
def hash (s : List Nat) : Nat :=
  s.foldl (fun h b => ((h ^^^ b) * 16777619) % 2 ^ 32) 2166136261

/-- The spec's own words for FNV-1a, §4.5/glossary: start `h = 0x811C9DC5`;
for each byte `b`: `h = (h XOR b) * 0x01000193` mod 2^32.  Written as a
plain recursion to be compared with the source-derived `hash`. -/
def fnv1aSpecGo : List Nat → Nat → Nat
  | [], h => h
  | b :: rest, h => fnv1aSpecGo rest (((h ^^^ b) * 0x01000193) % 2 ^ 32)

/-- See `fnv1aSpecGo`. -/
def fnv1aSpec (s : List Nat) : Nat := fnv1aSpecGo s 0x811C9DC5

lemma hash_foldl_eq_go (s : List Nat) :
    ∀ h : Nat, s.foldl (fun h b => ((h ^^^ b) * 16777619) % 2 ^ 32) h = fnv1aSpecGo s h := by
  induction s with
  | nil => intro h; rfl
  | cons b rest ih =>
    intro h
    simp only [List.foldl_cons, fnv1aSpecGo]
    exact ih _

/-! ## Chunk (src/chunk.rs) -/

/-- `Vec::resize_with(new_len, Default::default)` for a `Vec<usize>`:
truncate to `new_len` if longer, extend with `0`s if shorter. -/
def listResizeWith (l : List Nat) (n : Nat) : List Nat :=
  if n ≤ l.length then l.take n else l ++ List.replicate (n - l.length) 0

/-- `Vec::insert(i, a)`: shift everything from position `i` to the right.
(The source only calls it with `i < len`, where `Vec::insert` cannot panic.) -/
def listInsertAt (l : List Nat) (i : Nat) (a : Nat) : List Nat :=
  l.take i ++ a :: l.drop i

/-- `Chunk`, src/chunk.rs lines 55-60.  Bytes of `code` are `Nat`. -/
structure Chunk where
  code : List Nat
  constants : List Value
  lines : List Nat
deriving DecidableEq, Repr

/-- `Chunk::default()`. -/
def Chunk.empty : Chunk := ⟨[], [], []⟩

/-- `Chunk::write`, src/chunk.rs lines 63-67:
```text
self.code.push(v.into());
self.lines.resize_with(self.code.len(), Default::default);
self.lines.insert(self.code.len() - 1, line);
```
-/
def Chunk.write (c : Chunk) (v : Nat) (line : Nat) : Chunk :=
  let code := c.code ++ [v]
  let lines1 := listResizeWith c.lines code.length
  let lines2 := listInsertAt lines1 (code.length - 1) line
  { c with code := code, lines := lines2 }

/-- `Chunk::write_constant`, src/chunk.rs lines 69-72: push the value and
return its index. -/
def Chunk.write_constant (c : Chunk) (v : Value) : Chunk × Nat :=
  ({ c with constants := c.constants ++ [v] }, c.constants.length)

lemma listResizeWith_length (l : List Nat) (n : Nat) :
    (listResizeWith l n).length = n := by
  unfold listResizeWith
  split
  · rw [List.length_take]; omega
  · rw [List.length_append, List.length_replicate]; omega

lemma listInsertAt_length (l : List Nat) (i : Nat) (a : Nat) (h : i ≤ l.length) :
    (listInsertAt l i a).length = l.length + 1 := by
  unfold listInsertAt
  rw [List.length_append, List.length_take, List.length_cons, List.length_drop]
  omega

/-! ### Claim C4 -/

/-- C4: the source `hash` function computes exactly the 32-bit FNV-1a hash
described by the spec (same basis `0x811C9DC5`, same prime `0x01000193`,
xor-then-multiply per byte, mod 2^32), and it agrees with the three test
vectors quoted in the spec: `hash("") = 0x811C9DC5`,
`hash("a") = 0xE40C292C`, `hash("foobar") = 0xBF9CF968`. -/
theorem hash_is_fnv1a :
    (∀ s : List Nat, hash s = fnv1aSpec s) ∧
    hash [] = 0x811C9DC5 ∧
    hash [0x61] = 0xE40C292C ∧
    hash [0x66, 0x6F, 0x6F, 0x62, 0x61, 0x72] = 0xBF9CF968 := by
  refine ⟨fun s => hash_foldl_eq_go s 2166136261, by decide, by decide, by decide⟩

/-! ### Claim C1 -/

/-- C1 (code bug): `Chunk::write` does NOT keep `|code| == |lines|`.
`lines.resize_with(code.len())` sets `|lines| = |code|`, and the subsequent
`lines.insert(code.len() - 1, line)` grows it once more, so after every
`write` the invariant is `|lines| = |code| + 1`.  Concretely, a single
`write(0, 1)` on a fresh chunk leaves `code = [0]` but `lines = [1, 0]`.
The constant-operand half of the claim does hold: `write_constant` returns
the index of the value it just appended, which is a valid index into
`constants`, and `constants` only ever grows. -/
theorem chunk_write_lines_desync :
    ((Chunk.empty.write 0 1).code = [0] ∧ (Chunk.empty.write 0 1).lines = [1, 0]) ∧
    (∀ (c : Chunk) (v line : Nat),
      (c.write v line).lines.length = (c.write v line).code.length + 1) ∧
    (∀ (c : Chunk) (v : Value),
      (c.write_constant v).2 < (c.write_constant v).1.constants.length) := by
  refine ⟨⟨by decide, by decide⟩, ?_, ?_⟩
  · intro c v line
    show (listInsertAt (listResizeWith c.lines (c.code ++ [v]).length)
        ((c.code ++ [v]).length - 1) line).length = (c.code ++ [v]).length + 1
    rw [listInsertAt_length _ _ _ (by rw [listResizeWith_length]; omega),
      listResizeWith_length]
  · intro c v
    show c.constants.length < (c.constants ++ [v]).length
    rw [List.length_append]
    simp

/-! ## Scanner (src/scanner.rs)

The scanner walks raw bytes with `start`/`current` pointers; here they are
indices into `source`.  `line` is an `i32` in the source and only ever
increments from 1, so it is a `Nat` here.  Every loop of the scanner is
embedded with fuel; a result of `none` means the Rust loop never exits. -/

inductive TokenKind where
  | leftParen | rightParen | leftBrace | rightBrace
  | comma | dot | minus | plus | semicolon | slash | star
  | bang | bangEqual | equal | equalEqual
  | greater | greaterEqual | less | lessEqual
  | identifier | string | number
  | kwAnd | kwClass | kwElse | kwFalse | kwFun | kwFor | kwIf | kwNil
  | kwOr | kwPrint | kwReturn | kwSuper | kwThis | kwTrue | kwVar | kwWhile
  | eof
deriving DecidableEq, Repr

structure Token where
  kind : TokenKind
  lexeme : List Nat
  line : Nat
deriving DecidableEq, Repr

inductive ScanErrorKind where
  | unexpectedCharacter (c : Nat)
  | unterminatedString
deriving DecidableEq, Repr

structure ScanError where
  line : Nat
  kind : ScanErrorKind
deriving DecidableEq, Repr

structure Scanner where
  source : List Nat
  start : Nat
  current : Nat
  line : Nat
deriving DecidableEq, Repr

/-- `Scanner::new`. -/
def Scanner.new (source : List Nat) : Scanner :=
  ⟨source, 0, 0, 1⟩

/-- `Scanner::is_at_end`: `current == last` (pointer to one past the end). -/
def Scanner.is_at_end (s : Scanner) : Bool :=
  s.current = s.source.length

/-- `Scanner::peek`. -/
def Scanner.peek (s : Scanner) : Option Nat :=
  if s.is_at_end then none else s.source.get? s.current

/-- `Scanner::peek_next`.  At `current = len - 1` the source dereferences one
byte past the end of the buffer; the model returns `none` there (the only
use is the comparison against `/`, where an arbitrary out-of-bounds byte and
`none` behave the same for any source that is not followed in memory by a
`/`). -/
def Scanner.peek_next (s : Scanner) : Option Nat :=
  if s.is_at_end then none else s.source.get? (s.current + 1)

/-- `Scanner::advance`: post-increment `current`, return the byte read. -/
def Scanner.advance (s : Scanner) : Scanner × Nat :=
  ({ s with current := s.current + 1 }, (s.source.get? s.current).getD 0)

/-- `Scanner::matches`. -/
def Scanner.match_byte (s : Scanner) (expected : Nat) : Scanner × Bool :=
  if s.is_at_end then (s, false)
  else if (s.source.get? s.current).getD 0 ≠ expected then (s, false)
  else ({ s with current := s.current + 1 }, true)

/-- `Scanner::make_token`: lexeme is `source[start..current]`. -/
def Scanner.make_token (s : Scanner) (kind : TokenKind) : Token :=
  ⟨kind, (s.source.drop s.start).take (s.current - s.start), s.line⟩

/-- The inner comment loop of `Scanner::skip_whitespace`:
`while self.peek().map(|c| c != b'\n').unwrap_or_default() { self.advance(); }` -/
def Scanner.skip_comment : Nat → Scanner → Option Scanner
  | 0, _ => none
  | fuel + 1, s =>
    match s.peek with
    | none => some s
    | some c =>
      if c ≠ 10 then Scanner.skip_comment fuel { s with current := s.current + 1 }
      else some s

/-- `Scanner::skip_whitespace`, src/scanner.rs lines 86-111. -/
def Scanner.skip_whitespace : Nat → Scanner → Option Scanner
  | 0, _ => none
  | fuel + 1, s =>
    match s.peek with
    | none => some s
    | some c =>
      if c = 32 ∨ c = 13 ∨ c = 9 then
        Scanner.skip_whitespace fuel { s with current := s.current + 1 }
      else if c = 10 then
        Scanner.skip_whitespace fuel { s with current := s.current + 1, line := s.line + 1 }
      else if c = 47 then
        match s.peek_next with
        | some 47 =>
          match Scanner.skip_comment fuel s with
          | none => none
          | some s1 => Scanner.skip_whitespace fuel s1
        | _ => some s
      else some s

/-- The string-scanning loop of `Scanner::string`, src/scanner.rs lines
114-119:
```text
while self.peek().map(|c| c != b'"').unwrap_or_default() {
    if let Some(b'\n') = self.peek() { self.line += 1; self.advance(); }
}
```
Note that the loop body advances ONLY when the peeked byte is a newline; on
any other byte that is not `"` the state does not change. -/
def Scanner.string_loop : Nat → Scanner → Option Scanner
  | 0, _ => none
  | fuel + 1, s =>
    match s.peek with
    | none => some s
    | some c =>
      if c = 34 then some s
      else if c = 10 then
        Scanner.string_loop fuel { s with current := s.current + 1, line := s.line + 1 }
      else Scanner.string_loop fuel s

/-- `Scanner::string`, src/scanner.rs lines 113-128. -/
def Scanner.string (fuel : Nat) (s : Scanner) :
    Option (Scanner × Except ScanError (Option Token)) :=
  match Scanner.string_loop fuel s with
  | none => none
  | some s1 =>
    if s1.is_at_end then some (s1, Except.error ⟨s1.line, ScanErrorKind.unterminatedString⟩)
    else
      let s2 := (s1.advance).1
      some (s2, Except.ok (some (s2.make_token TokenKind.string)))

/-- The digit loop shared by both halves of `Scanner::number`. -/
def Scanner.digit_loop : Nat → Scanner → Option Scanner
  | 0, _ => none
  | fuel + 1, s =>
    match s.peek with
    | some c =>
      if 48 ≤ c ∧ c ≤ 57 then Scanner.digit_loop fuel { s with current := s.current + 1 }
      else some s
    | none => some s

/-- `Scanner::number`, src/scanner.rs lines 130-150. -/
def Scanner.number (fuel : Nat) (s : Scanner) :
    Option (Scanner × Except ScanError (Option Token)) :=
  match Scanner.digit_loop fuel s with
  | none => none
  | some s1 =>
    let fractional : Bool :=
      match s1.peek, s1.peek_next with
      | some 46, some c2 => 48 ≤ c2 ∧ c2 ≤ 57
      | _, _ => false
    if fractional then
      match Scanner.digit_loop fuel { s1 with current := s1.current + 1 } with
      | none => none
      | some s2 => some (s2, Except.ok (some (s2.make_token TokenKind.number)))
    else some (s1, Except.ok (some (s1.make_token TokenKind.number)))

/-- `is_alpha`. -/
def is_alpha (c : Nat) : Bool :=
  (97 ≤ c ∧ c ≤ 122) ∨ (65 ≤ c ∧ c ≤ 90) ∨ c = 95

/-- `Scanner::check_keyword`. -/
def Scanner.check_keyword (s : Scanner) (check_idx : Nat) (rest : List Nat)
    (kind : TokenKind) : TokenKind :=
  if s.current - s.start = rest.length + check_idx ∧
      ((s.source.drop (s.start + check_idx)).take rest.length = rest) then kind
  else TokenKind.identifier

/-- `Scanner::identifier_kind`, the keyword trie.  Keyword byte strings are
spelled as byte lists (`nd` = [110, 100], etc.). -/
def Scanner.identifier_kind (s : Scanner) : TokenKind :=
  match (s.source.get? s.start).getD 0 with
  | 97 => s.check_keyword 1 [110, 100] TokenKind.kwAnd
  | 99 => s.check_keyword 1 [108, 97, 115, 115] TokenKind.kwClass
  | 101 => s.check_keyword 1 [108, 115, 101] TokenKind.kwElse
  | 102 =>
    if s.current - s.start > 1 then
      match (s.source.get? (s.start + 1)).getD 0 with
      | 97 => s.check_keyword 2 [108, 115, 101] TokenKind.kwFalse
      | 111 => s.check_keyword 2 [114] TokenKind.kwFor
      | 117 => s.check_keyword 2 [110] TokenKind.kwFun
      | _ => TokenKind.identifier
    else TokenKind.identifier
  | 105 => s.check_keyword 1 [102] TokenKind.kwIf
  | 110 => s.check_keyword 1 [105, 108] TokenKind.kwNil
  | 111 => s.check_keyword 1 [114] TokenKind.kwOr
  | 112 => s.check_keyword 1 [114, 105, 110, 116] TokenKind.kwPrint
  | 114 => s.check_keyword 1 [101, 116, 117, 114, 110] TokenKind.kwReturn
  | 115 => s.check_keyword 1 [117, 112, 101, 114] TokenKind.kwSuper
  | 116 =>
    if s.current - s.start > 1 then
      match (s.source.get? (s.start + 1)).getD 0 with
      | 104 => s.check_keyword 2 [105, 115] TokenKind.kwThis
      | 114 => s.check_keyword 2 [117, 101] TokenKind.kwTrue
      | _ => TokenKind.identifier
    else TokenKind.identifier
  | 118 => s.check_keyword 1 [97, 114] TokenKind.kwVar
  | 119 => s.check_keyword 1 [104, 105, 108, 101] TokenKind.kwWhile
  | _ => TokenKind.identifier

/-- The loop of `Scanner::identifier`. -/
def Scanner.ident_loop : Nat → Scanner → Option Scanner
  | 0, _ => none
  | fuel + 1, s =>
    match s.peek with
    | none => some s
    | some c =>
      if ¬ is_alpha c ∧ ¬ (48 ≤ c ∧ c ≤ 57) then some s
      else Scanner.ident_loop fuel { s with current := s.current + 1 }

/-- `Scanner::identifier`. -/
def Scanner.identifier (fuel : Nat) (s : Scanner) :
    Option (Scanner × Except ScanError (Option Token)) :=
  match Scanner.ident_loop fuel s with
  | none => none
  | some s1 => some (s1, Except.ok (some (s1.make_token s1.identifier_kind)))

/-- Helper: emit a single-kind token from the post-advance state. -/
def Scanner.simple (s : Scanner) (kind : TokenKind) :
    Option (Scanner × Except ScanError (Option Token)) :=
  some (s, Except.ok (some (s.make_token kind)))

/-- Helper for the `! = < >` two-byte arms. -/
def Scanner.two_byte (s : Scanner) (ifEq thenK elseK : TokenKind) :
    Option (Scanner × Except ScanError (Option Token)) :=
  let (s1, matched) := s.match_byte 61
  if matched then s1.simple ifEq else
    let _ := thenK
    s1.simple elseK

/-- `Scanner::scan_token`, src/scanner.rs lines 22-84.  The result is
`none` when one of the scanner's loops never exits; otherwise
`some (scanner', Ok (Some token))`, `some (scanner', Ok None)` at end of
input, or `some (scanner', Err e)`. -/
def Scanner.scan_token (fuel : Nat) (s : Scanner) :
    Option (Scanner × Except ScanError (Option Token)) :=
  match Scanner.skip_whitespace fuel s with
  | none => none
  | some s0 =>
    let s1 := { s0 with start := s0.current }
    if s1.is_at_end then some (s1, Except.ok none)
    else
      let (s2, c) := s1.advance
      match c with
      | 40 => s2.simple TokenKind.leftParen
      | 41 => s2.simple TokenKind.rightParen
      | 123 => s2.simple TokenKind.leftBrace
      | 125 => s2.simple TokenKind.rightBrace
      | 59 => s2.simple TokenKind.semicolon
      | 44 => s2.simple TokenKind.comma
      | 46 => s2.simple TokenKind.dot
      | 45 => s2.simple TokenKind.minus
      | 43 => s2.simple TokenKind.plus
      | 47 => s2.simple TokenKind.slash
      | 42 => s2.simple TokenKind.star
      | 33 => s2.two_byte TokenKind.bangEqual TokenKind.bangEqual TokenKind.bang
      | 61 => s2.two_byte TokenKind.equalEqual TokenKind.equalEqual TokenKind.equal
      | 60 => s2.two_byte TokenKind.lessEqual TokenKind.lessEqual TokenKind.less
      | 62 => s2.two_byte TokenKind.greaterEqual TokenKind.greaterEqual TokenKind.greater
      | 34 => s2.string fuel
      | c =>
        if 48 ≤ c ∧ c ≤ 57 then s2.number fuel
        else if is_alpha c then s2.identifier fuel
        else some (s2, Except.error ⟨s2.line, ScanErrorKind.unexpectedCharacter c⟩)

/-! ### Claim C2 -/

lemma string_loop_stuck (s : Scanner) (c : Nat) (hc : s.peek = some c)
    (h34 : c ≠ 34) (h10 : c ≠ 10) : ∀ fuel, Scanner.string_loop fuel s = none := by
  intro fuel
  induction fuel with
  | zero => rfl
  | succ n ih =>
    unfold Scanner.string_loop
    rw [hc]
    simp only [h34, h10, if_false]
    exact ih

/-- C2 (code bug): `Scanner::scan_token` does NOT terminate on every input.
The string loop advances only past newline bytes, so on the source `"a"`
(bytes `34, 97, 34`) it spins forever on the `a`: for every fuel the
embedded loop is still running.  The two boundary behaviours the claim
describes do hold: on `""` (bytes `34, 34`, i.e. a string with empty
content) a `String` token is produced, and on a lone `"` the scanner
reaches the end of input and reports `UnterminatedString`. -/
theorem scanner_string_nonterminating :
    (∀ fuel, Scanner.scan_token fuel (Scanner.new [34, 97, 34]) = none) ∧
    (∃ s1, Scanner.scan_token 9 (Scanner.new [34, 34]) =
      some (s1, Except.ok (some ⟨TokenKind.string, [34, 34], 1⟩))) ∧
    (∃ s2, Scanner.scan_token 9 (Scanner.new [34]) =
      some (s2, Except.error ⟨1, ScanErrorKind.unterminatedString⟩)) := by
  refine ⟨?_, ⟨⟨[34, 34], 0, 2, 1⟩, rfl⟩, ⟨⟨[34], 0, 1, 1⟩, rfl⟩⟩
  intro fuel
  match fuel with
  | 0 => rfl
  | fuel + 1 =>
    show Scanner.string (fuel + 1) ⟨[34, 97, 34], 0, 1, 1⟩ = none
    unfold Scanner.string
    rw [string_loop_stuck ⟨[34, 97, 34], 0, 1, 1⟩ 97 (by decide) (by decide) (by decide)]

/-! ## Hash table (src/table.rs)

`Table { entries, len, capacity }` becomes a list of `Entry` whose length is
the capacity.  An entry's `key` is `none` for a null key pointer.  Slots are
read with `getD`; every index that arises is below the capacity.  The probe
loops of `find_entry` and `Table::find_string` are unbounded in the source;
they are embedded with fuel equal to the capacity, which is exactly enough
whenever the probe can terminate at all (the walk revisits its starting
point after `capacity` steps), so `none` models the infinite loop (and the
division-by-zero panic at capacity 0). -/

structure Entry where
  key : Option ObjString
  value : Value
deriving DecidableEq, Repr

/-- The all-empty slot written by `adjust_capacity`. -/
def Entry.empty : Entry := ⟨none, Value.nil⟩

/-- A live slot: non-null key. -/
def Entry.is_live (e : Entry) : Bool := e.key.isSome

/-- A genuinely empty slot: null key, `Nil` value. -/
def Entry.is_free : Entry → Bool
  | ⟨none, Value.nil⟩ => true
  | _ => false

/-- A tombstone: null key, non-`Nil` value (`delete` writes `Bool(true)`;
any non-`Nil` value probes the same way). -/
def Entry.is_tombstone : Entry → Bool
  | ⟨none, Value.nil⟩ => false
  | ⟨none, _⟩ => true
  | _ => false

structure Table where
  entries : List Entry
  len : Nat
deriving DecidableEq, Repr

/-- `Table::new`. -/
def Table.new : Table := ⟨[], 0⟩

/-- The `capacity` field always equals the entry array's length. -/
def Table.capacity (t : Table) : Nat := t.entries.length

/-- Read slot `i`. -/
def slotAt (entries : List Entry) (i : Nat) : Entry := entries.getD i Entry.empty

/-- The loop of `find_entry`, src/table.rs lines 173-196.  `idx` is the
current probe position, `tomb` the remembered tombstone slot (the source
overwrites it on every tombstone, so the LAST tombstone before the first
free slot wins), and the result is the found slot's index.  Key comparison
is pointer comparison (`(*entry).key == key`), here record equality. -/
def find_entry_aux (entries : List Entry) (key : ObjString) :
    Nat → Option Nat → Nat → Option Nat
  | _, _, 0 => none
  | idx, tomb, fuel + 1 =>
    match slotAt entries idx with
    | ⟨none, v⟩ =>
      if v = Value.nil then some (tomb.getD idx)
      else find_entry_aux entries key ((idx + 1) % entries.length) (some idx) fuel
    | ⟨some k, _⟩ =>
      if k = key then some idx
      else find_entry_aux entries key ((idx + 1) % entries.length) tomb fuel

/-- `find_entry`: start at `key.hash % capacity`. -/
def find_entry (entries : List Entry) (key : ObjString) : Option Nat :=
  find_entry_aux entries key (key.hash % entries.length) none entries.length

/-- `grow_capacity`, src/table.rs lines 198-204. -/
def grow_capacity (capacity : Nat) : Nat :=
  if capacity < 8 then 8 else capacity * 2

/-- `(self.capacity as f64 * 0.75) as usize`: for every capacity the table
can reach, `capacity * 0.75` is exact in `f64` and the cast truncates, so
this is `3 * capacity / 4` in natural division. -/
def max_load (capacity : Nat) : Nat := 3 * capacity / 4

/-- The reinsertion loop of `Table::adjust_capacity` (src/table.rs lines
144-155), processing the old entries in index order over an accumulated
(new array, new len) pair.  Tombstones and empty slots are skipped; every
live entry is written at the slot `find_entry` picks in the new array. -/
def rehash_loop : List Entry → List Entry × Nat → Option (List Entry × Nat)
  | [], st => some st
  | e :: rest, st =>
    match e.key with
    | none => rehash_loop rest st
    | some k =>
      match find_entry st.1 k with
      | none => none
      | some i => rehash_loop rest (st.1.set i e, st.2 + 1)

/-- `Table::adjust_capacity`, src/table.rs lines 132-160: allocate
`new_capacity` empty slots, reset `len` to 0 and reinsert the live entries,
counting them. -/
def Table.adjust_capacity (t : Table) (new_capacity : Nat) : Option Table :=
  match rehash_loop t.entries (List.replicate new_capacity Entry.empty, 0) with
  | none => none
  | some st => some ⟨st.1, st.2⟩

/-- `Table::set`, src/table.rs lines 61-79.  Returns the updated table and
`is_new_key` (`(*entry).key.is_null()` — note this is `true` for a reused
tombstone as well).  `len` increments only when the slot was genuinely
empty. -/
def Table.set (t : Table) (key : ObjString) (value : Value) : Option (Table × Bool) :=
  let grown : Option Table :=
    if t.len + 1 > max_load t.capacity then t.adjust_capacity (grow_capacity t.capacity)
    else some t
  match grown with
  | none => none
  | some t1 =>
    match find_entry t1.entries key with
    | none => none
    | some i =>
      let e := slotAt t1.entries i
      let is_new_key := e.key.isNone
      let len1 := if is_new_key ∧ e.value = Value.nil then t1.len + 1 else t1.len
      some (⟨t1.entries.set i ⟨some key, value⟩, len1⟩, is_new_key)

/-- `Table::get`, src/table.rs lines 46-59.  The outer `Option` is the fuel
result of the probe; the inner one is the source's `Option<&Value>`. -/
def Table.get (t : Table) (key : ObjString) : Option (Option Value) :=
  if t.len = 0 then some none
  else
    match find_entry t.entries key with
    | none => none
    | some i =>
      let e := slotAt t.entries i
      match e.key with
      | none => some none
      | some _ => some (some e.value)

/-- `Table::delete`, src/table.rs lines 81-95.  `find_entry` never returns
a null pointer, so the source's `entry.is_null()` early return is dead and
the found slot is always overwritten with a tombstone (even if it did not
hold `key`), and `len` is not decremented. -/
def Table.delete (t : Table) (key : ObjString) : Option (Table × Bool) :=
  if t.len = 0 then some (t, false)
  else
    match find_entry t.entries key with
    | none => none
    | some i =>
      some (⟨t.entries.set i ⟨none, Value.bool true⟩, t.len⟩, true)

/-- The probe loop of `Table::find_string`, src/table.rs lines 112-129.
A hit needs equal length, equal stored hash and equal bytes; a free slot
stops the walk with `None`; tombstones are skipped. -/
def find_string_aux (entries : List Entry) (s : List Nat) (h : Nat) :
    Nat → Nat → Option (Option ObjString)
  | _, 0 => none
  | idx, fuel + 1 =>
    match slotAt entries idx with
    | ⟨none, v⟩ =>
      if v = Value.nil then some none
      else find_string_aux entries s h ((idx + 1) % entries.length) fuel
    | ⟨some k, _⟩ =>
      if k.str.length = s.length ∧ k.hash = h ∧ k.str = s then some (some k)
      else find_string_aux entries s h ((idx + 1) % entries.length) fuel

/-- `Table::find_string`. -/
def Table.find_string (t : Table) (s : List Nat) (h : Nat) : Option (Option ObjString) :=
  if t.len = 0 then some none
  else find_string_aux t.entries s h (h % t.entries.length) t.entries.length

/-! ## Allocator (src/object.rs) -/

/-- `Allocator { objects, strings }`: `objects` is the intrusive list of
all allocations, most recent first; `next_id` supplies fresh allocation
identities (addresses). -/
structure Allocator where
  next_id : Nat
  objects : List ObjString
  strings : Table
deriving DecidableEq, Repr

/-- `Allocator::default()`. -/
def Allocator.new : Allocator := ⟨0, [], Table.new⟩

/-- `Allocator::new_string_object`, src/object.rs lines 41-54: build the
`ObjString` with the FNV-1a hash of its bytes, push it on the object list
(`put_obj`) and insert it into the intern table with value `Nil`. -/
def Allocator.new_string_object (a : Allocator) (s : List Nat) :
    Option (ObjString × Allocator) :=
  let obj : ObjString := ⟨a.next_id, s, hash s⟩
  match a.strings.set obj Value.nil with
  | none => none
  | some (strings1, _) =>
    some (obj, ⟨a.next_id + 1, obj :: a.objects, strings1⟩)

/-- `Allocator::copy_string`, src/object.rs lines 84-90: hash, probe the
intern table, return the interned handle when found, else allocate. -/
def Allocator.copy_string (a : Allocator) (s : List Nat) :
    Option (ObjString × Allocator) :=
  match a.strings.find_string s (hash s) with
  | none => none
  | some (some interned) => some (interned, a)
  | some none => a.new_string_object s

/-- Modelled from the spec: `Allocator::take_string` is called from
src/vm.rs (string concatenation) and src/table.rs tests but its definition
is not in the snapshot.  Per §4.4/§4.5 of the spec it interns an owned
string exactly like `copy_string` (probe by hash and content, reuse the
interned handle if present, otherwise allocate a fresh string object); the
ownership transfer has no observable effect in this model. -/
def Allocator.take_string (a : Allocator) (s : List Nat) :
    Option (ObjString × Allocator) :=
  match a.strings.find_string s (hash s) with
  | none => none
  | some (some interned) => some (interned, a)
  | some none => a.new_string_object s

/-! ## Table bookkeeping: counts, keys, slot lemmas -/

lemma slotAt_cons_succ (a : Entry) (l : List Entry) (n : Nat) :
    slotAt (a :: l) (n + 1) = slotAt l n := by
  unfold slotAt
  rw [List.getD_cons_succ]

lemma slotAt_mem (l : List Entry) (i : Nat) (h : i < l.length) : slotAt l i ∈ l := by
  induction l generalizing i with
  | nil => exact absurd h (by simp)
  | cons a rest ih =>
    cases i with
    | zero => exact List.mem_cons_self a rest
    | succ n =>
      rw [slotAt_cons_succ]
      exact List.mem_cons_of_mem a (ih n (by simpa using h))

lemma slotAt_set_self (l : List Entry) (i : Nat) (e : Entry) (h : i < l.length) :
    slotAt (l.set i e) i = e := by
  induction l generalizing i with
  | nil => exact absurd h (by simp)
  | cons a rest ih =>
    cases i with
    | zero => rfl
    | succ n =>
      rw [List.set_cons_succ, slotAt_cons_succ]
      exact ih n (by simpa using h)

lemma slotAt_set_other (l : List Entry) (i j : Nat) (e : Entry) (h : i ≠ j) :
    slotAt (l.set i e) j = slotAt l j := by
  induction l generalizing i j with
  | nil => rfl
  | cons a rest ih =>
    cases i with
    | zero =>
      cases j with
      | zero => exact absurd rfl h
      | succ m => rw [List.set_cons_zero, slotAt_cons_succ, slotAt_cons_succ]
    | succ n =>
      cases j with
      | zero => rfl
      | succ m =>
        rw [List.set_cons_succ, slotAt_cons_succ, slotAt_cons_succ]
        exact ih n m (fun hc => h (by rw [hc]))

lemma Entry.is_free_iff (e : Entry) :
    e.is_free = true ↔ e.key = none ∧ e.value = Value.nil := by
  rcases e with ⟨_ | k, v⟩
  · rcases v with _ | b | n | o <;> simp [Entry.is_free]
  · simp [Entry.is_free]

lemma Entry.is_tombstone_iff (e : Entry) :
    e.is_tombstone = true ↔ e.key = none ∧ e.value ≠ Value.nil := by
  rcases e with ⟨_ | k, v⟩
  · rcases v with _ | b | n | o <;> simp [Entry.is_tombstone]
  · simp [Entry.is_tombstone]

lemma Entry.shape (e : Entry) :
    e.is_free = true ∨ e.is_tombstone = true ∨ e.key.isSome := by
  rcases e with ⟨_ | k, v⟩
  · rcases v with _ | b | n | o
    · exact Or.inl rfl
    all_goals exact Or.inr (Or.inl rfl)
  · exact Or.inr (Or.inr rfl)

lemma Entry.not_free_of_key (e : Entry) (k : ObjString) (h : e.key = some k) :
    e.is_free = false := by
  rcases e with ⟨_ | k0, v⟩
  · cases h
  · rcases v with _ | b | n | o <;> rfl

lemma Entry.not_tombstone_of_key (e : Entry) (k : ObjString) (h : e.key = some k) :
    e.is_tombstone = false := by
  rcases e with ⟨_ | k0, v⟩
  · cases h
  · rcases v with _ | b | n | o <;> rfl

/-- Number of live (non-null-key) slots. -/
def live_count (l : List Entry) : Nat :=
  (l.filter Entry.is_live).length

/-- Number of non-free slots (live plus tombstones); in every reachable
table this is what the `len` field counts. -/
def used_count (l : List Entry) : Nat :=
  (l.filter fun e => !e.is_free).length

/-- The live keys of an entry list, in slot order. -/
def keys_of (l : List Entry) : List ObjString := l.filterMap Entry.key

/-- No slot of the list is a tombstone. -/
def no_tombstones (l : List Entry) : Prop := ∀ e ∈ l, e.is_tombstone = false

instance (l : List Entry) : Decidable (no_tombstones l) := by
  unfold no_tombstones; infer_instance

lemma length_filter_mono (l : List Entry) (p q : Entry → Bool)
    (h : ∀ e, p e = true → q e = true) :
    (l.filter p).length ≤ (l.filter q).length := by
  induction l with
  | nil => exact Nat.le_refl 0
  | cons e rest ih =>
    rw [List.filter_cons, List.filter_cons]
    cases hp : p e with
    | true =>
      simp only [hp, if_true, (h e hp), List.length_cons]
      exact Nat.succ_le_succ ih
    | false =>
      simp only [hp, Bool.false_eq_true, if_false]
      cases hq : q e with
      | true => simp only [hq, if_true, List.length_cons]; exact Nat.le_succ_of_le ih
      | false => simp only [hq, Bool.false_eq_true, if_false]; exact ih

lemma live_count_le_used (l : List Entry) : live_count l ≤ used_count l := by
  refine length_filter_mono l _ _ ?_
  intro e he
  rcases e with ⟨_ | k, v⟩
  · exact absurd he (by simp [Entry.is_live])
  · rcases v with _ | b | n | o <;> rfl

lemma used_count_le_length (l : List Entry) : used_count l ≤ l.length :=
  List.length_filter_le _ l

lemma no_tombstones_used_eq_live (l : List Entry) (h : no_tombstones l) :
    used_count l = live_count l := by
  unfold used_count live_count
  induction l with
  | nil => rfl
  | cons e rest ih =>
    have hrest : no_tombstones rest := fun x hx => h x (List.mem_cons_of_mem _ hx)
    have he := h e (List.mem_cons_self e rest)
    rw [List.filter_cons, List.filter_cons]
    rcases Entry.shape e with hs | hs | hs
    · have h1 : (!e.is_free) = false := by rw [hs]; rfl
      have h2 : e.is_live = false := by
        obtain ⟨hk, _⟩ := (Entry.is_free_iff e).mp hs
        simp [Entry.is_live, hk]
      simp only [h1, h2, Bool.false_eq_true, if_false]
      exact ih hrest
    · rw [hs] at he; cases he
    · have h1 : (!e.is_free) = true := by
        rw [Entry.not_free_of_key e _ (Option.isSome_iff_exists.mp hs).choose_spec]; rfl
      have h2 : e.is_live = true := hs
      simp only [h1, h2, if_true, List.length_cons]
      rw [ih hrest]

lemma exists_free_of_used_lt (l : List Entry) (h : used_count l < l.length) :
    ∃ m, m < l.length ∧ (slotAt l m).is_free = true := by
  induction l with
  | nil => exact absurd h (by simp [used_count])
  | cons e rest ih =>
    cases hf : e.is_free with
    | true => exact ⟨0, by simp, by simpa [slotAt] using hf⟩
    | false =>
      have hrest : used_count rest < rest.length := by
        unfold used_count at h ⊢
        rw [List.filter_cons] at h
        have : (!e.is_free) = true := by rw [hf]; rfl
        rw [this, if_pos rfl] at h
        simpa using Nat.lt_of_succ_lt_succ (by simpa using h)
      obtain ⟨m, hm, hfree⟩ := ih hrest
      refine ⟨m + 1, by simpa using Nat.succ_lt_succ hm, ?_⟩
      simpa [slotAt] using hfree

lemma live_count_pos (l : List Entry) (i : Nat) (hi : i < l.length)
    (hk : (slotAt l i).key.isSome) : 0 < live_count l := by
  have hmem := slotAt_mem l i hi
  have hmf : slotAt l i ∈ l.filter Entry.is_live :=
    List.mem_filter.mpr ⟨hmem, hk⟩
  have := List.length_pos.mpr (List.ne_nil_of_mem hmf)
  simpa [live_count] using this

lemma used_count_pos (l : List Entry) (i : Nat) (hi : i < l.length)
    (hk : (slotAt l i).is_free = false) : 0 < used_count l := by
  have hmem := slotAt_mem l i hi
  have hmf : slotAt l i ∈ l.filter fun e => !e.is_free :=
    List.mem_filter.mpr ⟨hmem, by rw [hk]; rfl⟩
  have := List.length_pos.mpr (List.ne_nil_of_mem hmf)
  simpa [used_count] using this

lemma live_count_set_of_free (l : List Entry) (i : Nat) (e : Entry)
    (hi : i < l.length) (hfree : (slotAt l i).is_free = true)
    (hkey : e.is_live = true) :
    live_count (l.set i e) = live_count l + 1 := by
  induction l generalizing i with
  | nil => exact absurd hi (by simp)
  | cons a rest ih =>
    cases i with
    | zero =>
      have ha : a.is_live = false := by
        have hk := ((Entry.is_free_iff a).mp (by simpa [slotAt] using hfree)).1
        simp [Entry.is_live, hk]
      show live_count (e :: rest) = live_count (a :: rest) + 1
      unfold live_count
      rw [List.filter_cons, List.filter_cons, hkey, ha]
      simp
    | succ n =>
      have hn : n < rest.length := by simpa using hi
      have hfree2 : (slotAt rest n).is_free = true := by simpa [slotAt] using hfree
      show live_count (a :: rest.set n e) = live_count (a :: rest) + 1
      unfold live_count
      rw [List.filter_cons, List.filter_cons]
      have := ih n hn hfree2
      unfold live_count at this
      cases hl : a.is_live with
      | true => simp only [hl, if_true, List.length_cons, this]
      | false => simp only [hl, Bool.false_eq_true, if_false, this]

lemma keys_of_mem (l : List Entry) (i : Nat) (k : ObjString) (hi : i < l.length)
    (hk : (slotAt l i).key = some k) : k ∈ keys_of l :=
  List.mem_filterMap.mpr ⟨slotAt l i, slotAt_mem l i hi, hk⟩

lemma keys_of_set_subset (l : List Entry) (i : Nat) (e : Entry) (k : ObjString)
    (hk : k ∈ keys_of (l.set i e)) : k ∈ keys_of l ∨ e.key = some k := by
  obtain ⟨x, hx, hxk⟩ := List.mem_filterMap.mp hk
  rcases List.mem_or_eq_of_mem_set hx with h | h
  · exact Or.inl (List.mem_filterMap.mpr ⟨x, h, hxk⟩)
  · subst h; exact Or.inr hxk

/-! ## Probe-walk lemmas

Everything about `find_entry_aux`/`find_string_aux` is proved by induction
on the fuel.  The three shape lemmas below let each induction step branch on
whether the current slot is free, a tombstone, or live. -/

lemma find_entry_aux_of_free (entries : List Entry) (key : ObjString)
    (idx : Nat) (tomb : Option Nat) (fuel : Nat)
    (h : (slotAt entries idx).is_free = true) :
    find_entry_aux entries key idx tomb (fuel + 1) = some (tomb.getD idx) := by
  obtain ⟨hk, hv⟩ := (Entry.is_free_iff _).mp h
  show (match slotAt entries idx with
    | ⟨none, v⟩ =>
      if v = Value.nil then some (tomb.getD idx)
      else find_entry_aux entries key ((idx + 1) % entries.length) (some idx) fuel
    | ⟨some k, _⟩ =>
      if k = key then some idx
      else find_entry_aux entries key ((idx + 1) % entries.length) tomb fuel) =
    some (tomb.getD idx)
  rcases hsl : slotAt entries idx with ⟨ko, v⟩
  rw [hsl] at hk hv
  obtain rfl : ko = none := hk
  show (if v = Value.nil then some (tomb.getD idx)
    else find_entry_aux entries key ((idx + 1) % entries.length) (some idx) fuel) =
    some (tomb.getD idx)
  exact if_pos hv

lemma find_entry_aux_of_tombstone (entries : List Entry) (key : ObjString)
    (idx : Nat) (tomb : Option Nat) (fuel : Nat)
    (h : (slotAt entries idx).is_tombstone = true) :
    find_entry_aux entries key idx tomb (fuel + 1) =
      find_entry_aux entries key ((idx + 1) % entries.length) (some idx) fuel := by
  obtain ⟨hk, hv⟩ := (Entry.is_tombstone_iff _).mp h
  show (match slotAt entries idx with
    | ⟨none, v⟩ =>
      if v = Value.nil then some (tomb.getD idx)
      else find_entry_aux entries key ((idx + 1) % entries.length) (some idx) fuel
    | ⟨some k, _⟩ =>
      if k = key then some idx
      else find_entry_aux entries key ((idx + 1) % entries.length) tomb fuel) = _
  rcases hsl : slotAt entries idx with ⟨ko, v⟩
  rw [hsl] at hk hv
  obtain rfl : ko = none := hk
  show (if v = Value.nil then some (tomb.getD idx)
    else find_entry_aux entries key ((idx + 1) % entries.length) (some idx) fuel) = _
  exact if_neg hv

lemma find_entry_aux_of_key (entries : List Entry) (key : ObjString)
    (idx : Nat) (tomb : Option Nat) (fuel : Nat) (k : ObjString)
    (h : (slotAt entries idx).key = some k) :
    find_entry_aux entries key idx tomb (fuel + 1) =
      if k = key then some idx
      else find_entry_aux entries key ((idx + 1) % entries.length) tomb fuel := by
  show (match slotAt entries idx with
    | ⟨none, v⟩ =>
      if v = Value.nil then some (tomb.getD idx)
      else find_entry_aux entries key ((idx + 1) % entries.length) (some idx) fuel
    | ⟨some k, _⟩ =>
      if k = key then some idx
      else find_entry_aux entries key ((idx + 1) % entries.length) tomb fuel) = _
  rcases hsl : slotAt entries idx with ⟨ko, v⟩
  rw [hsl] at h
  obtain rfl : ko = some k := h
  rfl

lemma find_string_aux_of_free (entries : List Entry) (s : List Nat) (h : Nat)
    (idx : Nat) (fuel : Nat)
    (hf : (slotAt entries idx).is_free = true) :
    find_string_aux entries s h idx (fuel + 1) = some none := by
  obtain ⟨hk, hv⟩ := (Entry.is_free_iff _).mp hf
  show (match slotAt entries idx with
    | ⟨none, v⟩ =>
      if v = Value.nil then some none
      else find_string_aux entries s h ((idx + 1) % entries.length) fuel
    | ⟨some k, _⟩ =>
      if k.str.length = s.length ∧ k.hash = h ∧ k.str = s then some (some k)
      else find_string_aux entries s h ((idx + 1) % entries.length) fuel) = some none
  rcases hsl : slotAt entries idx with ⟨ko, v⟩
  rw [hsl] at hk hv
  obtain rfl : ko = none := hk
  show (if v = Value.nil then some none
    else find_string_aux entries s h ((idx + 1) % entries.length) fuel) = some none
  exact if_pos hv

lemma find_string_aux_of_tombstone (entries : List Entry) (s : List Nat) (h : Nat)
    (idx : Nat) (fuel : Nat)
    (ht : (slotAt entries idx).is_tombstone = true) :
    find_string_aux entries s h idx (fuel + 1) =
      find_string_aux entries s h ((idx + 1) % entries.length) fuel := by
  obtain ⟨hk, hv⟩ := (Entry.is_tombstone_iff _).mp ht
  show (match slotAt entries idx with
    | ⟨none, v⟩ =>
      if v = Value.nil then some none
      else find_string_aux entries s h ((idx + 1) % entries.length) fuel
    | ⟨some k, _⟩ =>
      if k.str.length = s.length ∧ k.hash = h ∧ k.str = s then some (some k)
      else find_string_aux entries s h ((idx + 1) % entries.length) fuel) = _
  rcases hsl : slotAt entries idx with ⟨ko, v⟩
  rw [hsl] at hk hv
  obtain rfl : ko = none := hk
  show (if v = Value.nil then some none
    else find_string_aux entries s h ((idx + 1) % entries.length) fuel) = _
  exact if_neg hv

lemma find_string_aux_of_key (entries : List Entry) (s : List Nat) (h : Nat)
    (idx : Nat) (fuel : Nat) (k : ObjString)
    (hk : (slotAt entries idx).key = some k) :
    find_string_aux entries s h idx (fuel + 1) =
      if k.str.length = s.length ∧ k.hash = h ∧ k.str = s then some (some k)
      else find_string_aux entries s h ((idx + 1) % entries.length) fuel := by
  show (match slotAt entries idx with
    | ⟨none, v⟩ =>
      if v = Value.nil then some none
      else find_string_aux entries s h ((idx + 1) % entries.length) fuel
    | ⟨some k, _⟩ =>
      if k.str.length = s.length ∧ k.hash = h ∧ k.str = s then some (some k)
      else find_string_aux entries s h ((idx + 1) % entries.length) fuel) = _
  rcases hsl : slotAt entries idx with ⟨ko, v⟩
  rw [hsl] at hk
  obtain rfl : ko = some k := hk
  rfl

lemma free_not_tombstone (e : Entry) (h1 : e.is_free = true)
    (h2 : e.is_tombstone = true) : False := by
  obtain ⟨_, hv1⟩ := (Entry.is_free_iff e).mp h1
  obtain ⟨_, hv2⟩ := (Entry.is_tombstone_iff e).mp h2
  exact hv2 hv1

lemma free_not_key (e : Entry) (k : ObjString) (h1 : e.is_free = true)
    (h2 : e.key = some k) : False := by
  obtain ⟨hk, _⟩ := (Entry.is_free_iff e).mp h1
  rw [hk] at h2
  cases h2

lemma tombstone_not_key (e : Entry) (k : ObjString) (h1 : e.is_tombstone = true)
    (h2 : e.key = some k) : False := by
  obtain ⟨hk, _⟩ := (Entry.is_tombstone_iff e).mp h1
  rw [hk] at h2
  cases h2

/-! Modular-arithmetic helpers for the probe walks. -/

lemma probe_step (cap idx j : Nat) :
    ((idx + 1) % cap + j) % cap = (idx + (j + 1)) % cap := by
  rw [Nat.mod_add_mod]
  congr 1
  omega

lemma exists_probe_offset (cap idx m : Nat) (hidx : idx < cap) (hm : m < cap) :
    ∃ j, j < cap ∧ (idx + j) % cap = m := by
  by_cases h : idx ≤ m
  · refine ⟨m - idx, by omega, ?_⟩
    have he : idx + (m - idx) = m := by omega
    rw [he, Nat.mod_eq_of_lt hm]
  · refine ⟨cap + m - idx, by omega, ?_⟩
    have he : idx + (cap + m - idx) = cap + m := by omega
    rw [he, Nat.add_mod_left, Nat.mod_eq_of_lt hm]

/-- The probe reaches a free slot (or stops earlier) whenever one of the
next `fuel` probe positions is free, so with fuel = capacity the walk
terminates as soon as the table has any free slot. -/
lemma find_entry_aux_isSome (entries : List Entry) (key : ObjString) :
    ∀ (fuel idx : Nat) (tomb : Option Nat), idx < entries.length →
      (∃ j, j < fuel ∧ (slotAt entries ((idx + j) % entries.length)).is_free = true) →
      (find_entry_aux entries key idx tomb fuel).isSome := by
  intro fuel
  induction fuel with
  | zero => rintro idx tomb hidx ⟨j, hj, _⟩; omega
  | succ n ih =>
    rintro idx tomb hidx ⟨j, hj, hfree⟩
    have hcap : 0 < entries.length := Nat.lt_of_le_of_lt (Nat.zero_le idx) hidx
    rcases Entry.shape (slotAt entries idx) with hs | hs | hs
    · rw [find_entry_aux_of_free entries key idx tomb n hs]; rfl
    · rw [find_entry_aux_of_tombstone entries key idx tomb n hs]
      cases j with
      | zero =>
        rw [Nat.add_zero, Nat.mod_eq_of_lt hidx] at hfree
        exact (free_not_tombstone _ hfree hs).elim
      | succ j0 =>
        refine ih ((idx + 1) % entries.length) (some idx) (Nat.mod_lt _ hcap) ⟨j0, by omega, ?_⟩
        rw [probe_step]
        exact hfree
    · obtain ⟨k, hk⟩ := Option.isSome_iff_exists.mp hs
      rw [find_entry_aux_of_key entries key idx tomb n k hk]
      by_cases hkey : k = key
      · rw [if_pos hkey]; rfl
      · rw [if_neg hkey]
        cases j with
        | zero =>
          rw [Nat.add_zero, Nat.mod_eq_of_lt hidx] at hfree
          exact (free_not_key _ k hfree hk).elim
        | succ j0 =>
          refine ih ((idx + 1) % entries.length) tomb (Nat.mod_lt _ hcap) ⟨j0, by omega, ?_⟩
          rw [probe_step]
          exact hfree

/-- Same reachability statement for the `find_string` walk. -/
lemma find_string_aux_isSome (entries : List Entry) (s : List Nat) (h : Nat) :
    ∀ (fuel idx : Nat), idx < entries.length →
      (∃ j, j < fuel ∧ (slotAt entries ((idx + j) % entries.length)).is_free = true) →
      (find_string_aux entries s h idx fuel).isSome := by
  intro fuel
  induction fuel with
  | zero => rintro idx hidx ⟨j, hj, _⟩; omega
  | succ n ih =>
    rintro idx hidx ⟨j, hj, hfree⟩
    have hcap : 0 < entries.length := Nat.lt_of_le_of_lt (Nat.zero_le idx) hidx
    rcases Entry.shape (slotAt entries idx) with hs | hs | hs
    · rw [find_string_aux_of_free entries s h idx n hs]; rfl
    · rw [find_string_aux_of_tombstone entries s h idx n hs]
      cases j with
      | zero =>
        rw [Nat.add_zero, Nat.mod_eq_of_lt hidx] at hfree
        exact (free_not_tombstone _ hfree hs).elim
      | succ j0 =>
        refine ih ((idx + 1) % entries.length) (Nat.mod_lt _ hcap) ⟨j0, by omega, ?_⟩
        rw [probe_step]
        exact hfree
    · obtain ⟨k, hk⟩ := Option.isSome_iff_exists.mp hs
      rw [find_string_aux_of_key entries s h idx n k hk]
      by_cases hcond : k.str.length = s.length ∧ k.hash = h ∧ k.str = s
      · rw [if_pos hcond]; rfl
      · rw [if_neg hcond]
        cases j with
        | zero =>
          rw [Nat.add_zero, Nat.mod_eq_of_lt hidx] at hfree
          exact (free_not_key _ k hfree hk).elim
        | succ j0 =>
          refine ih ((idx + 1) % entries.length) (Nat.mod_lt _ hcap) ⟨j0, by omega, ?_⟩
          rw [probe_step]
          exact hfree

/-- The index `find_entry_aux` returns is in range. -/
lemma find_entry_aux_lt (entries : List Entry) (key : ObjString) :
    ∀ (fuel idx : Nat) (tomb : Option Nat) (i : Nat), idx < entries.length →
      (∀ t, tomb = some t → t < entries.length) →
      find_entry_aux entries key idx tomb fuel = some i → i < entries.length := by
  intro fuel
  induction fuel with
  | zero => intro idx tomb i _ _ hres; cases hres
  | succ n ih =>
    intro idx tomb i hidx htomb hres
    have hcap : 0 < entries.length := Nat.lt_of_le_of_lt (Nat.zero_le idx) hidx
    rcases Entry.shape (slotAt entries idx) with hs | hs | hs
    · rw [find_entry_aux_of_free entries key idx tomb n hs] at hres
      cases tomb with
      | none => cases hres; exact hidx
      | some t => cases hres; exact htomb t rfl
    · rw [find_entry_aux_of_tombstone entries key idx tomb n hs] at hres
      exact ih _ (some idx) i (Nat.mod_lt _ hcap) (fun t ht => by cases ht; exact hidx) hres
    · obtain ⟨k, hk⟩ := Option.isSome_iff_exists.mp hs
      rw [find_entry_aux_of_key entries key idx tomb n k hk] at hres
      by_cases hkey : k = key
      · rw [if_pos hkey] at hres; cases hres; exact hidx
      · rw [if_neg hkey] at hres
        exact ih _ tomb i (Nat.mod_lt _ hcap) htomb hres

/-- Characterisation of the returned slot: it is free, a tombstone, or holds
the probed key. -/
lemma find_entry_aux_ret (entries : List Entry) (key : ObjString) :
    ∀ (fuel idx : Nat) (tomb : Option Nat) (i : Nat),
      (∀ t, tomb = some t → (slotAt entries t).is_tombstone = true) →
      find_entry_aux entries key idx tomb fuel = some i →
      (slotAt entries i).is_free = true ∨ (slotAt entries i).is_tombstone = true ∨
        (slotAt entries i).key = some key := by
  intro fuel
  induction fuel with
  | zero => intro idx tomb i _ hres; cases hres
  | succ n ih =>
    intro idx tomb i htomb hres
    rcases Entry.shape (slotAt entries idx) with hs | hs | hs
    · rw [find_entry_aux_of_free entries key idx tomb n hs] at hres
      cases tomb with
      | none => cases hres; exact Or.inl hs
      | some t => cases hres; exact Or.inr (Or.inl (htomb t rfl))
    · rw [find_entry_aux_of_tombstone entries key idx tomb n hs] at hres
      exact ih _ (some idx) i (fun t ht => by cases ht; exact hs) hres
    · obtain ⟨k, hk⟩ := Option.isSome_iff_exists.mp hs
      rw [find_entry_aux_of_key entries key idx tomb n k hk] at hres
      by_cases hkey : k = key
      · rw [if_pos hkey] at hres; cases hres
        exact Or.inr (Or.inr (hkey ▸ hk))
      · rw [if_neg hkey] at hres
        exact ih _ tomb i htomb hres

/-- After writing `⟨key, v⟩` into the slot the walk returned, the same walk
finds exactly that slot again. -/
lemma find_entry_aux_set_self (entries : List Entry) (key : ObjString) (v : Value) :
    ∀ (fuel idx : Nat) (tomb : Option Nat) (i : Nat),
      idx < entries.length →
      (∀ t, tomb = some t → (slotAt entries t).is_tombstone = true ∧ t < entries.length) →
      find_entry_aux entries key idx tomb fuel = some i →
      find_entry_aux (entries.set i ⟨some key, v⟩) key idx tomb fuel = some i := by
  intro fuel
  induction fuel with
  | zero => intro idx tomb i _ _ hres; cases hres
  | succ n ih =>
    intro idx tomb i hidx htomb hres
    have hcap : 0 < entries.length := Nat.lt_of_le_of_lt (Nat.zero_le idx) hidx
    have hlen : (entries.set i ⟨some key, v⟩).length = entries.length := by
      rw [List.length_set]
    rcases Entry.shape (slotAt entries idx) with hs | hs | hs
    · rw [find_entry_aux_of_free entries key idx tomb n hs] at hres
      cases tomb with
      | none =>
        simp only [Option.getD_none] at hres
        cases hres
        rw [find_entry_aux_of_key _ key idx none n key
          (by rw [slotAt_set_self entries idx _ hidx]), if_pos rfl]
      | some t =>
        simp only [Option.getD_some] at hres
        cases hres
        have hne : i ≠ idx := by
          intro hc
          exact free_not_tombstone _ hs (hc ▸ (htomb i rfl).1)
        rw [find_entry_aux_of_free _ key idx (some i) n
          (by rw [slotAt_set_other entries i idx _ hne]; exact hs)]
        rfl
    · by_cases hii : idx = i
      · subst hii
        rw [find_entry_aux_of_key _ key idx tomb n key
          (by rw [slotAt_set_self entries idx _ hidx]), if_pos rfl]
      · rw [find_entry_aux_of_tombstone entries key idx tomb n hs] at hres
        have hrec := ih ((idx + 1) % entries.length) (some idx) i (Nat.mod_lt _ hcap)
          (fun t ht => by cases ht; exact ⟨hs, hidx⟩) hres
        rw [find_entry_aux_of_tombstone _ key idx tomb n
          (by rw [slotAt_set_other entries i idx _ (fun hc => hii hc.symm)]; exact hs)]
        rw [hlen]
        exact hrec
    · obtain ⟨k, hk⟩ := Option.isSome_iff_exists.mp hs
      rw [find_entry_aux_of_key entries key idx tomb n k hk] at hres
      by_cases hkey : k = key
      · rw [if_pos hkey] at hres
        cases hres
        rw [find_entry_aux_of_key _ key idx tomb n key
          (by rw [slotAt_set_self entries idx _ hidx]), if_pos rfl]
      · rw [if_neg hkey] at hres
        have hii : idx ≠ i := by
          intro hc
          rcases find_entry_aux_ret entries key n ((idx + 1) % entries.length) tomb i
              (fun t ht => (htomb t ht).1) hres with hc2 | hc2 | hc2
          · exact free_not_key _ k hc2 (hc ▸ hk)
          · exact tombstone_not_key _ k hc2 (hc ▸ hk)
          · rw [← hc, hk] at hc2
            exact hkey (by cases hc2; rfl)
        have hrec := ih ((idx + 1) % entries.length) tomb i (Nat.mod_lt _ hcap) htomb hres
        rw [find_entry_aux_of_key _ key idx tomb n k
          (by rw [slotAt_set_other entries i idx _ (fun hc => hii hc.symm)]; exact hk),
          if_neg hkey, hlen]
        exact hrec

/-- In a tombstone-free array, writing an entry whose key is different from
`key` into a FREE slot does not change where the walk finds `key` (used for
the rehash loop: earlier reinserted keys stay findable). -/
lemma find_entry_aux_set_other (entries : List Entry) (key : ObjString)
    (f : Nat) (w : Entry) :
    ∀ (fuel idx : Nat) (i : Nat),
      idx < entries.length →
      no_tombstones entries →
      (slotAt entries i).key = some key →
      (slotAt entries f).is_free = true →
      (∀ kw, w.key = some kw → kw ≠ key) →
      find_entry_aux entries key idx none fuel = some i →
      find_entry_aux (entries.set f w) key idx none fuel = some i := by
  intro fuel
  induction fuel with
  | zero => intro idx i _ _ _ _ _ hres; cases hres
  | succ n ih =>
    intro idx i hidx hnt hkey hfree hw hres
    have hcap : 0 < entries.length := Nat.lt_of_le_of_lt (Nat.zero_le idx) hidx
    have hlen : (entries.set f w).length = entries.length := by rw [List.length_set]
    rcases Entry.shape (slotAt entries idx) with hs | hs | hs
    · rw [find_entry_aux_of_free entries key idx none n hs] at hres
      cases hres
      exact (free_not_key _ key hs hkey).elim
    · exact absurd (hnt _ (slotAt_mem entries idx hidx)) (by rw [hs]; intro hc; cases hc)
    · obtain ⟨k, hk⟩ := Option.isSome_iff_exists.mp hs
      have hif : idx ≠ f := by
        intro hc
        exact free_not_key _ k (hc ▸ hfree) hk
      rw [find_entry_aux_of_key entries key idx none n k hk] at hres
      by_cases hkk : k = key
      · rw [if_pos hkk] at hres
        cases hres
        rw [find_entry_aux_of_key _ key idx none n k
          (by rw [slotAt_set_other entries f idx _ (fun hc => hif hc.symm)]; exact hk),
          if_pos hkk]
      · rw [if_neg hkk] at hres
        have hrec := ih ((idx + 1) % entries.length) i (Nat.mod_lt _ hcap) hnt hkey hfree hw hres
        rw [find_entry_aux_of_key _ key idx none n k
          (by rw [slotAt_set_other entries f idx _ (fun hc => hif hc.symm)]; exact hk),
          if_neg hkk, hlen]
        exact hrec

/-- If no live key of the array matches the probed content, and a free slot
is reachable, the `find_string` walk reports a miss. -/
lemma find_string_aux_none (entries : List Entry) (s : List Nat) (h : Nat) :
    ∀ (fuel idx : Nat), idx < entries.length →
      (∃ j, j < fuel ∧ (slotAt entries ((idx + j) % entries.length)).is_free = true) →
      (∀ jj k, jj < entries.length → (slotAt entries jj).key = some k → k.str ≠ s) →
      find_string_aux entries s h idx fuel = some none := by
  intro fuel
  induction fuel with
  | zero => rintro idx hidx ⟨j, hj, _⟩; omega
  | succ n ih =>
    rintro idx hidx ⟨j, hj, hfree⟩ hnomatch
    have hcap : 0 < entries.length := Nat.lt_of_le_of_lt (Nat.zero_le idx) hidx
    rcases Entry.shape (slotAt entries idx) with hs | hs | hs
    · exact find_string_aux_of_free entries s h idx n hs
    · rw [find_string_aux_of_tombstone entries s h idx n hs]
      cases j with
      | zero =>
        rw [Nat.add_zero, Nat.mod_eq_of_lt hidx] at hfree
        exact (free_not_tombstone _ hfree hs).elim
      | succ j0 =>
        refine ih ((idx + 1) % entries.length) (Nat.mod_lt _ hcap) ⟨j0, by omega, ?_⟩ hnomatch
        rw [probe_step]
        exact hfree
    · obtain ⟨k, hk⟩ := Option.isSome_iff_exists.mp hs
      rw [find_string_aux_of_key entries s h idx n k hk,
        if_neg (fun hc => hnomatch idx k hidx hk hc.2.2)]
      cases j with
      | zero =>
        rw [Nat.add_zero, Nat.mod_eq_of_lt hidx] at hfree
        exact (free_not_key _ k hfree hk).elim
      | succ j0 =>
        refine ih ((idx + 1) % entries.length) (Nat.mod_lt _ hcap) ⟨j0, by omega, ?_⟩ hnomatch
        rw [probe_step]
        exact hfree

/-- The key interning step: if the `find_string` walk misses (`some none`)
and the `find_entry` walk (same start) picks slot `i` for a fresh key `obj`
that no live slot holds, then after writing `⟨obj, v'⟩` at `i` the
`find_string` walk returns exactly `obj`. -/
lemma find_string_aux_after_insert (entries : List Entry) (obj : ObjString) (v' : Value) :
    ∀ (fuel idx : Nat) (tomb : Option Nat) (i : Nat),
      idx < entries.length →
      (∀ t, tomb = some t → t ≠ i ∧ (slotAt entries t).is_tombstone = true) →
      (∀ jj k, jj < entries.length → (slotAt entries jj).key = some k → k ≠ obj) →
      find_string_aux entries obj.str obj.hash idx fuel = some none →
      find_entry_aux entries obj idx tomb fuel = some i →
      find_string_aux (entries.set i ⟨some obj, v'⟩) obj.str obj.hash idx fuel =
        some (some obj) := by
  intro fuel
  induction fuel with
  | zero => intro idx tomb i _ _ _ _ hres; cases hres
  | succ n ih =>
    intro idx tomb i hidx htomb hkeys hmiss hres
    have hcap : 0 < entries.length := Nat.lt_of_le_of_lt (Nat.zero_le idx) hidx
    have hlen : (entries.set i ⟨some obj, v'⟩).length = entries.length := by
      rw [List.length_set]
    rcases Entry.shape (slotAt entries idx) with hs | hs | hs
    · rw [find_entry_aux_of_free entries obj idx tomb n hs] at hres
      cases tomb with
      | none =>
        simp only [Option.getD_none] at hres
        cases hres
        rw [find_string_aux_of_key _ obj.str obj.hash idx n obj
          (by rw [slotAt_set_self entries idx _ hidx]),
          if_pos ⟨rfl, rfl, rfl⟩]
      | some t =>
        simp only [Option.getD_some] at hres
        cases hres
        exact absurd rfl (htomb i rfl).1
    · by_cases hii : idx = i
      · subst hii
        rw [find_string_aux_of_key _ obj.str obj.hash idx n obj
          (by rw [slotAt_set_self entries idx _ hidx]),
          if_pos ⟨rfl, rfl, rfl⟩]
      · rw [find_entry_aux_of_tombstone entries obj idx tomb n hs] at hres
        rw [find_string_aux_of_tombstone entries obj.str obj.hash idx n hs] at hmiss
        have hrec := ih ((idx + 1) % entries.length) (some idx) i (Nat.mod_lt _ hcap)
          (fun t ht => by cases ht; exact ⟨hii, hs⟩) hkeys hmiss hres
        rw [find_string_aux_of_tombstone _ obj.str obj.hash idx n
          (by rw [slotAt_set_other entries i idx _ (fun hc => hii hc.symm)]; exact hs),
          hlen]
        exact hrec
    · obtain ⟨k, hk⟩ := Option.isSome_iff_exists.mp hs
      have hkobj : k ≠ obj := hkeys idx k hidx hk
      rw [find_entry_aux_of_key entries obj idx tomb n k hk, if_neg hkobj] at hres
      rw [find_string_aux_of_key entries obj.str obj.hash idx n k hk] at hmiss
      have hcond : ¬ (k.str.length = obj.str.length ∧ k.hash = obj.hash ∧ k.str = obj.str) := by
        intro hc
        rw [if_pos hc] at hmiss
        cases hmiss
      rw [if_neg hcond] at hmiss
      have hii : idx ≠ i := by
        intro hc
        rcases find_entry_aux_ret entries obj n ((idx + 1) % entries.length) tomb i
            (fun t ht => (htomb t ht).2) hres with hc2 | hc2 | hc2
        · exact free_not_key _ k hc2 (hc ▸ hk)
        · exact tombstone_not_key _ k hc2 (hc ▸ hk)
        · rw [← hc, hk] at hc2
          exact hkobj (by cases hc2; rfl)
      have hrec := ih ((idx + 1) % entries.length) tomb i (Nat.mod_lt _ hcap)
        (fun t ht => htomb t ht) hkeys hmiss hres
      rw [find_string_aux_of_key _ obj.str obj.hash idx n k
        (by rw [slotAt_set_other entries i idx _ (fun hc => hii hc.symm)]; exact hk),
        if_neg hcond, hlen]
      exact hrec

lemma live_count_cons_live (e : Entry) (l : List Entry) (h : e.is_live = true) :
    live_count (e :: l) = live_count l + 1 := by
  unfold live_count
  rw [List.filter_cons, h]
  simp

lemma live_count_cons_dead (e : Entry) (l : List Entry) (h : e.is_live = false) :
    live_count (e :: l) = live_count l := by
  unfold live_count
  rw [List.filter_cons, h]
  simp

lemma keys_of_cons_none (e : Entry) (l : List Entry) (h : e.key = none) :
    keys_of (e :: l) = keys_of l := by
  unfold keys_of
  rw [List.filterMap_cons, h]

lemma keys_of_cons_some (e : Entry) (l : List Entry) (k : ObjString) (h : e.key = some k) :
    keys_of (e :: l) = k :: keys_of l := by
  unfold keys_of
  rw [List.filterMap_cons, h]

lemma Entry.eta_key (e : Entry) (k : ObjString) (h : e.key = some k) :
    e = ⟨some k, e.value⟩ := by
  rcases e with ⟨ek, ev⟩
  obtain rfl : ek = some k := h
  rfl

/-- `find_entry`-level wrapper of `find_entry_aux_set_self`. -/
lemma find_entry_set_self (entries : List Entry) (key : ObjString) (v : Value) (i : Nat)
    (hcap : 0 < entries.length) (h : find_entry entries key = some i) :
    find_entry (entries.set i ⟨some key, v⟩) key = some i := by
  unfold find_entry at h ⊢
  rw [List.length_set]
  exact find_entry_aux_set_self entries key v entries.length (key.hash % entries.length)
    none i (Nat.mod_lt _ hcap) (fun t ht => by cases ht) h

/-- `find_entry`-level wrapper of `find_entry_aux_set_other`. -/
lemma find_entry_set_other (entries : List Entry) (key : ObjString) (f : Nat) (w : Entry)
    (i : Nat) (hcap : 0 < entries.length) (hnt : no_tombstones entries)
    (hkey : (slotAt entries i).key = some key)
    (hfree : (slotAt entries f).is_free = true)
    (hw : ∀ kw, w.key = some kw → kw ≠ key)
    (h : find_entry entries key = some i) :
    find_entry (entries.set f w) key = some i := by
  unfold find_entry at h ⊢
  rw [List.length_set]
  exact find_entry_aux_set_other entries key f w entries.length (key.hash % entries.length)
    i (Nat.mod_lt _ hcap) hnt hkey hfree hw h

/-- `find_entry` succeeds on any array with a free slot. -/
lemma find_entry_isSome (entries : List Entry) (key : ObjString)
    (hfree : ∃ m, m < entries.length ∧ (slotAt entries m).is_free = true) :
    ∃ i, find_entry entries key = some i := by
  obtain ⟨m, hm, hmf⟩ := hfree
  have hcap : 0 < entries.length := Nat.lt_of_le_of_lt (Nat.zero_le m) hm
  have hstart : key.hash % entries.length < entries.length := Nat.mod_lt _ hcap
  obtain ⟨j, hj, hje⟩ := exists_probe_offset entries.length (key.hash % entries.length) m hstart hm
  have := find_entry_aux_isSome entries key entries.length (key.hash % entries.length) none
    hstart ⟨j, hj, by rw [hje]; exact hmf⟩
  exact Option.isSome_iff_exists.mp this

/-- Full specification of the reinsertion loop of `adjust_capacity`:
given a tombstone-free accumulator whose live entries are findable, the loop
terminates, reinserts exactly the live entries of `old` (tombstones and
free slots are dropped), counts them, and every entry — reinserted or
pre-existing — is findable at its slot in the result. -/
lemma rehash_loop_spec (newCap : Nat) :
    ∀ (old : List Entry) (A : List Entry) (cnt : Nat),
      A.length = newCap →
      no_tombstones A →
      live_count A = cnt →
      cnt + live_count old < newCap →
      (∀ i k, i < newCap → (slotAt A i).key = some k → find_entry A k = some i) →
      (keys_of old).Nodup →
      (∀ k, k ∈ keys_of old → k ∉ keys_of A) →
      ∃ A' cnt', rehash_loop old (A, cnt) = some (A', cnt') ∧
        A'.length = newCap ∧ no_tombstones A' ∧
        live_count A' = cnt' ∧ cnt' = cnt + live_count old ∧
        (∀ i k, i < newCap → (slotAt A i).key = some k →
          slotAt A' i = slotAt A i ∧ find_entry A' k = some i) ∧
        (∀ e, e ∈ old → ∀ k, e.key = some k →
          ∃ i, i < newCap ∧ slotAt A' i = e ∧ find_entry A' k = some i) ∧
        (∀ i, i < newCap → ∀ k, (slotAt A' i).key = some k →
          slotAt A' i ∈ old ∨ slotAt A' i = slotAt A i) := by
  intro old
  induction old with
  | nil =>
    intro A cnt hA hnt hlc hbound hfind _ _
    refine ⟨A, cnt, rfl, hA, hnt, hlc, by simp [live_count], ?_, ?_, ?_⟩
    · intro i k hi hk
      exact ⟨rfl, hfind i k hi hk⟩
    · intro e he
      cases he
    · intro i _ k _
      exact Or.inr rfl
  | cons e rest ih =>
    intro A cnt hA hnt hlc hbound hfind hnodup hnotin
    rcases he : e.key with _ | k
    · -- skipped slot (free or tombstone in the old array)
      have helive : e.is_live = false := by simp [Entry.is_live, he]
      have hlcons : live_count (e :: rest) = live_count rest :=
        live_count_cons_dead e rest helive
      have hkeys : keys_of (e :: rest) = keys_of rest := keys_of_cons_none e rest he
      obtain ⟨A', cnt', hrun, h1, h2, h3, h4, h5, h6, h7⟩ :=
        ih A cnt hA hnt hlc (by rw [hlcons] at hbound; exact hbound) hfind
          (by rw [hkeys] at hnodup; exact hnodup)
          (by rw [hkeys] at hnotin; exact hnotin)
      refine ⟨A', cnt', ?_, h1, h2, h3, by rw [hlcons]; exact h4, h5, ?_, ?_⟩
      · show rehash_loop (e :: rest) (A, cnt) = some (A', cnt')
        simp only [rehash_loop, he]
        exact hrun
      · intro e0 he0 k0 hk0
        rcases List.mem_cons.mp he0 with rfl | hmem
        · rw [he] at hk0; cases hk0
        · exact h6 e0 hmem k0 hk0
      · intro i hi k0 hk0
        rcases h7 i hi k0 hk0 with hc | hc
        · exact Or.inl (List.mem_cons_of_mem _ hc)
        · exact Or.inr hc
    · -- live slot: reinsert
      have helive : e.is_live = true := by simp [Entry.is_live, he]
      have hlcons : live_count (e :: rest) = live_count rest + 1 :=
        live_count_cons_live e rest helive
      have hkeys : keys_of (e :: rest) = k :: keys_of rest := keys_of_cons_some e rest k he
      have hliveA : live_count A < newCap := by
        rw [hlc]
        rw [hlcons] at hbound
        omega
      have hcapA : 0 < A.length := by
        rw [hA]
        omega
      have hfreeA : ∃ m, m < A.length ∧ (slotAt A m).is_free = true := by
        apply exists_free_of_used_lt
        rw [no_tombstones_used_eq_live A hnt, hA]
        exact hliveA
      obtain ⟨i, hi⟩ := find_entry_isSome A k hfreeA
      have hilt : i < A.length := by
        unfold find_entry at hi
        exact find_entry_aux_lt A k A.length (k.hash % A.length) none i
          (Nat.mod_lt _ hcapA) (fun t ht => by cases ht) hi
      have hishape := find_entry_aux_ret A k A.length (k.hash % A.length) none i
        (fun t ht => by cases ht) hi
      have hifree : (slotAt A i).is_free = true := by
        rcases hishape with hc | hc | hc
        · exact hc
        · exact absurd (hnt _ (slotAt_mem A i hilt)) (by rw [hc]; intro h0; cases h0)
        · exfalso
          have : k ∈ keys_of A := keys_of_mem A i k hilt hc
          exact hnotin k (by rw [hkeys]; exact List.mem_cons_self _ _) this
      -- the updated accumulator
      have hA1len : (A.set i e).length = newCap := by rw [List.length_set]; exact hA
      have hA1nt : no_tombstones (A.set i e) := by
        intro x hx
        rcases List.mem_or_eq_of_mem_set hx with hmem | rfl
        · exact hnt x hmem
        · exact Entry.not_tombstone_of_key x k he
      have hA1lc : live_count (A.set i e) = cnt + 1 := by
        rw [live_count_set_of_free A i e hilt hifree helive, hlc]
      have hknotinA : k ∉ keys_of A :=
        hnotin k (by rw [hkeys]; exact List.mem_cons_self _ _)
      have hknotinrest : k ∉ keys_of rest := by
        rw [hkeys] at hnodup
        exact (List.nodup_cons.mp hnodup).1
      have hA1find : ∀ i0 k0, i0 < newCap → (slotAt (A.set i e) i0).key = some k0 →
          find_entry (A.set i e) k0 = some i0 := by
        intro i0 k0 hi0 hk0
        by_cases hii : i0 = i
        · subst hii
          rw [slotAt_set_self A i0 e (by rw [hA]; exact hi0)] at hk0
          rw [he] at hk0
          cases hk0
          have heq : A.set i0 e = A.set i0 ⟨some k, e.value⟩ := by
            rw [← Entry.eta_key e k he]
          rw [heq]
          exact find_entry_set_self A k e.value i0 hcapA hi
        · rw [slotAt_set_other A i i0 e (fun hc => hii hc.symm)] at hk0
          have hne : k ≠ k0 := by
            intro hc
            exact hknotinA (hc ▸ keys_of_mem A i0 k0 (by rw [hA]; exact hi0) hk0)
          exact find_entry_set_other A k0 i e i0 hcapA hnt hk0 hifree
            (fun kw hkw => by rw [he] at hkw; cases hkw; exact hne)
            (hfind i0 k0 hi0 hk0)
      have hA1notin : ∀ k0, k0 ∈ keys_of rest → k0 ∉ keys_of (A.set i e) := by
        intro k0 hk0 hmem
        rcases keys_of_set_subset A i e k0 hmem with hc | hc
        · exact hnotin k0 (by rw [hkeys]; exact List.mem_cons_of_mem _ hk0) hc
        · rw [he] at hc
          cases hc
          exact hknotinrest hk0
      have hbound1 : (cnt + 1) + live_count rest < newCap := by
        rw [hlcons] at hbound
        omega
      obtain ⟨A', cnt', hrun, h1, h2, h3, h4, h5, h6, h7⟩ :=
        ih (A.set i e) (cnt + 1) hA1len hA1nt hA1lc hbound1 hA1find
          (by rw [hkeys] at hnodup; exact (List.nodup_cons.mp hnodup).2) hA1notin
      have hiNew : i < newCap := by rw [← hA]; exact hilt
      have hslotA1 : slotAt (A.set i e) i = e := slotAt_set_self A i e hilt
      refine ⟨A', cnt', ?_, h1, h2, h3, by rw [hlcons]; omega, ?_, ?_, ?_⟩
      · show rehash_loop (e :: rest) (A, cnt) = some (A', cnt')
        simp only [rehash_loop, he, hi]
        exact hrun
      · -- preservation of the pre-existing entries of A
        intro i0 k0 hi0 hk0
        have hii : i0 ≠ i := by
          intro hc
          exact free_not_key _ k0 (hc ▸ hifree) (hc ▸ hk0)
        have hslot : slotAt (A.set i e) i0 = slotAt A i0 :=
          slotAt_set_other A i i0 e (fun hc => hii hc.symm)
        obtain ⟨hp1, hp2⟩ := h5 i0 k0 hi0 (by rw [hslot]; exact hk0)
        exact ⟨by rw [hp1, hslot], hp2⟩
      · -- every live entry of (e :: rest) lands somewhere findable
        intro e0 he0 k0 hk0
        rcases List.mem_cons.mp he0 with rfl | hmem
        · obtain rfl : k = k0 := by rw [he] at hk0; cases hk0; rfl
          obtain ⟨hp1, hp2⟩ := h5 i k hiNew (by rw [hslotA1]; exact he)
          exact ⟨i, hiNew, by rw [hp1, hslotA1], hp2⟩
        · exact h6 e0 hmem k0 hk0
      · -- every live entry of the result comes from the inputs
        intro j hj k0 hk0
        rcases h7 j hj k0 hk0 with hc | hc
        · exact Or.inl (List.mem_cons_of_mem _ hc)
        · by_cases hji : j = i
          · subst hji
            rw [hc, hslotA1]
            exact Or.inl (List.mem_cons_self _ _)
          · rw [hc, slotAt_set_other A i j e (fun h0 => hji h0.symm)]
            exact Or.inr rfl

lemma slotAt_replicate_empty (n i : Nat) :
    slotAt (List.replicate n Entry.empty) i = Entry.empty := by
  induction n generalizing i with
  | zero => rfl
  | succ m ih =>
    cases i with
    | zero => rfl
    | succ j =>
      rw [List.replicate_succ, slotAt_cons_succ]
      exact ih j

lemma live_count_replicate_empty (n : Nat) :
    live_count (List.replicate n Entry.empty) = 0 := by
  induction n with
  | zero => rfl
  | succ m ih =>
    rw [List.replicate_succ, live_count_cons_dead Entry.empty (List.replicate m Entry.empty) rfl]
    exact ih

lemma keys_of_replicate_empty (n : Nat) :
    keys_of (List.replicate n Entry.empty) = [] := by
  induction n with
  | zero => rfl
  | succ m ih =>
    rw [List.replicate_succ, keys_of_cons_none _ _ rfl]
    exact ih

/-- `Table.get` computes the stored value once `find_entry` lands on a live
slot. -/
lemma Table.get_eq_some (t : Table) (key : ObjString) (i : Nat) (k0 : ObjString)
    (hlen : t.len ≠ 0) (hfe : find_entry t.entries key = some i)
    (hk : (slotAt t.entries i).key = some k0) :
    t.get key = some (some (slotAt t.entries i).value) := by
  unfold Table.get
  rw [if_neg hlen, hfe]
  show (match (slotAt t.entries i).key with
    | none => some none
    | some _ => some (some (slotAt t.entries i).value)) = _
  rw [hk]

/-- Variant of `Table.get_eq_some` phrased through the slot's contents. -/
lemma Table.get_eq_some_of_slot (t : Table) (key : ObjString) (i : Nat) (v : Value)
    (hlen : t.len ≠ 0) (hfe : find_entry t.entries key = some i)
    (hslot : slotAt t.entries i = ⟨some key, v⟩) :
    t.get key = some (some v) := by
  have h := Table.get_eq_some t key i key hlen hfe (by rw [hslot])
  rw [h, hslot]

/-- `Table.adjust_capacity` via `rehash_loop_spec`: starting accumulator is
the all-free array. -/
lemma adjust_capacity_spec (t : Table) (newCap : Nat)
    (hnodup : (keys_of t.entries).Nodup)
    (hcap : live_count t.entries < newCap) :
    ∃ t', t.adjust_capacity newCap = some t' ∧
      t'.entries.length = newCap ∧ no_tombstones t'.entries ∧
      t'.len = live_count t.entries ∧ live_count t'.entries = t'.len ∧
      (∀ e, e ∈ t.entries → ∀ k, e.key = some k →
        ∃ i, i < newCap ∧ slotAt t'.entries i = e ∧ find_entry t'.entries k = some i) ∧
      (∀ i, i < newCap → ∀ k, (slotAt t'.entries i).key = some k →
        slotAt t'.entries i ∈ t.entries) := by
  obtain ⟨A', cnt', hrun, h1, h2, h3, h4, _, h6, h7⟩ :=
    rehash_loop_spec newCap t.entries (List.replicate newCap Entry.empty) 0
      (List.length_replicate _ _)
      (fun e he => by rw [List.eq_of_mem_replicate he]; rfl)
      (live_count_replicate_empty newCap)
      (by simpa using hcap)
      (fun i k _ hk => by rw [slotAt_replicate_empty] at hk; cases hk)
      hnodup
      (by rw [keys_of_replicate_empty]; intro k _ hmem; cases hmem)
  refine ⟨⟨A', cnt'⟩, ?_, h1, h2, by show cnt' = live_count t.entries; omega,
    by show live_count A' = cnt'; exact h3, h6, ?_⟩
  · unfold Table.adjust_capacity
    rw [hrun]
  · intro i hi k hk
    rcases h7 i hi k hk with hc | hc
    · exact hc
    · rw [hc, slotAt_replicate_empty] at hk
      cases hk

/-! ### Claim C6 -/

/-- C6: `adjust_capacity` drops every tombstone, resets `len` to the number
of live entries, and preserves the key-to-value mapping: for every live slot
`⟨k, v⟩` of a well-formed table, `get k` returns `v` both before and after
the resize.  Hypotheses: the live keys are pairwise distinct pointers, each
is findable at its slot (true of every reachable table), `len` is non-zero
(so `get` probes at all) and the new capacity exceeds the live count (true
of every capacity the growth policy chooses). -/
theorem adjust_capacity_preserves (t : Table) (newCap : Nat)
    (hlen : 0 < t.len)
    (hnodup : (keys_of t.entries).Nodup)
    (hcap : live_count t.entries < newCap)
    (hfind : ∀ i k, i < t.capacity → (slotAt t.entries i).key = some k →
      find_entry t.entries k = some i) :
    ∃ t', t.adjust_capacity newCap = some t' ∧
      t'.capacity = newCap ∧
      t'.len = live_count t.entries ∧
      no_tombstones t'.entries ∧
      (∀ i, i < newCap → ∀ k, (slotAt t'.entries i).key = some k →
        slotAt t'.entries i ∈ t.entries) ∧
      (∀ i k, i < t.capacity → (slotAt t.entries i).key = some k →
        t.get k = some (some (slotAt t.entries i).value) ∧
        t'.get k = some (some (slotAt t.entries i).value)) := by
  obtain ⟨t', hrun, h1, h2, h3, h4, h6, h7⟩ := adjust_capacity_spec t newCap hnodup hcap
  refine ⟨t', hrun, h1, h3, h2, h7, ?_⟩
  intro i k hi hk
  constructor
  · exact Table.get_eq_some t k i k (by omega) (hfind i k hi hk) hk
  · obtain ⟨i2, hi2, hslot2, hfe2⟩ :=
      h6 (slotAt t.entries i) (slotAt_mem t.entries i hi) k hk
    have hlen2 : t'.len ≠ 0 := by
      have : 0 < live_count t.entries :=
        live_count_pos t.entries i hi (by rw [hk]; rfl)
      omega
    have := Table.get_eq_some t' k i2 k hlen2 hfe2 (by rw [hslot2]; exact hk)
    rw [this, hslot2]

/-- Witness for `adjust_capacity_preserves`: a capacity-1 table holding one
live key, resized to capacity 2. -/
theorem adjust_capacity_preserves_witness :
    0 < (Table.mk [⟨some ⟨0, [], 0⟩, Value.bool true⟩] 1).len ∧
    live_count (Table.mk [⟨some ⟨0, [], 0⟩, Value.bool true⟩] 1).entries < 2 ∧
    ∃ t', (Table.mk [⟨some ⟨0, [], 0⟩, Value.bool true⟩] 1).adjust_capacity 2 = some t' ∧
      t'.capacity = 2 ∧ t'.len = 1 ∧
      (Table.mk [⟨some ⟨0, [], 0⟩, Value.bool true⟩] 1).get ⟨0, [], 0⟩ =
        some (some (Value.bool true)) ∧
      t'.get ⟨0, [], 0⟩ = some (some (Value.bool true)) := by
  obtain ⟨t', hrun, hc, hl, _, _, hget⟩ :=
    adjust_capacity_preserves (Table.mk [⟨some ⟨0, [], 0⟩, Value.bool true⟩] 1) 2
      (by decide) (by decide) (by decide)
      (by
        intro i k hi hk
        have hi1 : i < 1 := hi
        interval_cases i
        rw [show (slotAt (Table.mk [⟨some ⟨0, [], 0⟩, Value.bool true⟩] 1).entries 0).key =
          some ⟨0, [], 0⟩ from rfl] at hk
        cases hk
        decide)
  obtain ⟨hget1, hget2⟩ := hget 0 ⟨0, [], 0⟩ (by decide)
    (by rw [show (slotAt (Table.mk [⟨some ⟨0, [], 0⟩, Value.bool true⟩] 1).entries 0).key =
      some ⟨0, [], 0⟩ from rfl])
  exact ⟨by decide, by decide, t', hrun, hc, by rw [hl]; decide,
    by rw [show (slotAt (Table.mk [⟨some ⟨0, [], 0⟩, Value.bool true⟩] 1).entries 0).value =
      Value.bool true from rfl] at hget1; exact hget1,
    by rw [show (slotAt (Table.mk [⟨some ⟨0, [], 0⟩, Value.bool true⟩] 1).entries 0).value =
      Value.bool true from rfl] at hget2; exact hget2⟩

lemma grow_capacity_gt (c : Nat) : c < grow_capacity c := by
  unfold grow_capacity
  split <;> omega

lemma Entry.free_cond (e : Entry) :
    (e.key.isNone = true ∧ e.value = Value.nil) ↔ e.is_free = true := by
  rw [Entry.is_free_iff]
  rcases e with ⟨_ | k, v⟩ <;> simp

/-- Unfolding equation for `Table.set` once the growth step and the probe
are known. -/
lemma Table.set_eq (t t1 : Table) (key : ObjString) (v : Value) (i : Nat)
    (hgrow : (if t.len + 1 > max_load t.capacity
      then t.adjust_capacity (grow_capacity t.capacity) else some t) = some t1)
    (hfe : find_entry t1.entries key = some i) :
    t.set key v = some (⟨t1.entries.set i ⟨some key, v⟩,
      if (slotAt t1.entries i).key.isNone ∧ (slotAt t1.entries i).value = Value.nil
      then t1.len + 1 else t1.len⟩, (slotAt t1.entries i).key.isNone) := by
  show (match (if t.len + 1 > max_load t.capacity
      then t.adjust_capacity (grow_capacity t.capacity) else some t) with
    | none => (none : Option (Table × Bool))
    | some t1 =>
      match find_entry t1.entries key with
      | none => none
      | some i =>
        some (Table.mk (t1.entries.set i ⟨some key, v⟩)
          (if (slotAt t1.entries i).key.isNone ∧ (slotAt t1.entries i).value = Value.nil
          then t1.len + 1 else t1.len), (slotAt t1.entries i).key.isNone)) = _
  rw [hgrow]
  show (match find_entry t1.entries key with
    | none => (none : Option (Table × Bool))
    | some i =>
      some (Table.mk (t1.entries.set i ⟨some key, v⟩)
        (if (slotAt t1.entries i).key.isNone ∧ (slotAt t1.entries i).value = Value.nil
        then t1.len + 1 else t1.len), (slotAt t1.entries i).key.isNone)) = _
  rw [hfe]

/-! ### Claim C7 -/

/-- C7 counterexample: reusing a tombstone slot makes `set` return TRUE,
not false as the claim states.  The table below has capacity 8, `len = 1`
and a single tombstone at index 4; the key's stored hash is 4, so
`find_entry` starts at slot 4, remembers the tombstone, sees the free slot
5 and returns the tombstone slot 4 — whose key is null, so `is_new_key` is
true. -/
theorem set_tombstone_returns_true :
    (Entry.is_tombstone (slotAt (List.replicate 4 Entry.empty ++
      ⟨none, Value.bool true⟩ :: List.replicate 3 Entry.empty) 4) = true) ∧
    (Entry.is_free (slotAt (List.replicate 4 Entry.empty ++
      ⟨none, Value.bool true⟩ :: List.replicate 3 Entry.empty) 4) = false) ∧
    find_entry (List.replicate 4 Entry.empty ++
      ⟨none, Value.bool true⟩ :: List.replicate 3 Entry.empty) ⟨0, [97], 4⟩ = some 4 ∧
    (Table.set ⟨List.replicate 4 Entry.empty ++
        ⟨none, Value.bool true⟩ :: List.replicate 3 Entry.empty, 1⟩
      ⟨0, [97], 4⟩ (Value.bool false)).map Prod.snd = some true := by
  refine ⟨by decide, by decide, by decide, by decide⟩

/-- C7 (amended): `set(k, v)` grows the table exactly when
`len + 1 > ⌊0.75 * capacity⌋` (to 8 when the capacity is below 8, double
otherwise — `max(8, 2*capacity)` for every reachable capacity), writes
`{k, v}` into the slot `find_entry` picks, increments `len` only when that
slot was genuinely empty, and afterwards `get k` returns `v`.  But the
returned boolean is `is_new_key = key.is_null()`, which is true for a
EMPTY slot AND for a reused tombstone — not "true iff the slot was
previously empty".  Hypotheses: `len` counts the non-free slots and live
keys are distinct, as in every reachable table. -/
theorem set_spec_amended (t : Table) (key : ObjString) (v : Value)
    (hlen_eq : t.len = used_count t.entries)
    (hnodup : (keys_of t.entries).Nodup) :
    ∃ t1 i t' b,
      (if t.len + 1 > max_load t.capacity
        then t.adjust_capacity (grow_capacity t.capacity) = some t1
        else t1 = t) ∧
      find_entry t1.entries key = some i ∧
      t.set key v = some (t', b) ∧
      t'.entries = t1.entries.set i ⟨some key, v⟩ ∧
      b = (slotAt t1.entries i).key.isNone ∧
      t'.len = (if (slotAt t1.entries i).is_free = true then t1.len + 1 else t1.len) ∧
      t'.capacity = (if t.len + 1 > max_load t.capacity
        then grow_capacity t.capacity else t.capacity) ∧
      t'.get key = some (some v) := by
  by_cases hg : t.len + 1 > max_load t.capacity
  · -- growth path: rehash into a fresh array, then insert
    have hlive : live_count t.entries < grow_capacity t.capacity := by
      have h1 := live_count_le_used t.entries
      have h2 := used_count_le_length t.entries
      have h3 := grow_capacity_gt t.capacity
      have h4 : t.capacity = t.entries.length := rfl
      omega
    obtain ⟨t1, hrun, hlen1, hnt1, hlenlive, hlive1, _, _⟩ :=
      adjust_capacity_spec t (grow_capacity t.capacity) hnodup hlive
    have hfree1 : ∃ m, m < t1.entries.length ∧ (slotAt t1.entries m).is_free = true := by
      apply exists_free_of_used_lt
      rw [no_tombstones_used_eq_live t1.entries hnt1, hlive1, hlenlive, hlen1]
      exact hlive
    obtain ⟨i, hfe⟩ := find_entry_isSome t1.entries key hfree1
    have hcap1 : 0 < t1.entries.length := by
      obtain ⟨m, hm, _⟩ := hfree1
      omega
    have hilt : i < t1.entries.length := by
      unfold find_entry at hfe
      exact find_entry_aux_lt t1.entries key t1.entries.length _ none i
        (Nat.mod_lt _ hcap1) (fun x hx => by cases hx) hfe
    have hgrow : (if t.len + 1 > max_load t.capacity
        then t.adjust_capacity (grow_capacity t.capacity) else some t) = some t1 := by
      rw [if_pos hg, hrun]
    have hset := Table.set_eq t t1 key v i hgrow hfe
    have hshape := find_entry_aux_ret t1.entries key t1.entries.length
      (key.hash % t1.entries.length) none i (fun x hx => by cases hx) hfe
    have hlen' : (if (slotAt t1.entries i).key.isNone ∧
        (slotAt t1.entries i).value = Value.nil then t1.len + 1 else t1.len) ≠ 0 := by
      rcases hshape with hc | hc | hc
      · rw [if_pos ((Entry.free_cond _).mpr hc)]
        omega
      · exact absurd (hnt1 _ (slotAt_mem t1.entries i hilt)) (by rw [hc]; intro h0; cases h0)
      · have : 0 < live_count t1.entries :=
          live_count_pos t1.entries i hilt (by rw [hc]; rfl)
        rw [hlive1] at this
        split <;> omega
    refine ⟨t1, i, _, _, by rw [if_pos hg]; exact hrun, hfe, hset, rfl, rfl, ?_, ?_, ?_⟩
    · exact if_congr (Entry.free_cond _) rfl rfl
    · show (t1.entries.set i ⟨some key, v⟩).length = _
      rw [List.length_set, if_pos hg, hlen1]
    · exact Table.get_eq_some_of_slot _ key i v hlen'
        (find_entry_set_self t1.entries key v i hcap1 hfe)
        (show slotAt (t1.entries.set i ⟨some key, v⟩) i = ⟨some key, v⟩ from
          slotAt_set_self t1.entries i _ hilt)
  · -- no growth: the branch condition bounds `len` strictly below capacity
    have hcap0 : 0 < t.capacity := by
      unfold max_load at hg
      omega
    have hlen_lt : t.len < t.entries.length := by
      unfold max_load Table.capacity at hg
      omega
    have hfree1 : ∃ m, m < t.entries.length ∧ (slotAt t.entries m).is_free = true := by
      apply exists_free_of_used_lt
      omega
    obtain ⟨i, hfe⟩ := find_entry_isSome t.entries key hfree1
    have hcap1 : 0 < t.entries.length := hcap0
    have hilt : i < t.entries.length := by
      unfold find_entry at hfe
      exact find_entry_aux_lt t.entries key t.entries.length _ none i
        (Nat.mod_lt _ hcap1) (fun x hx => by cases hx) hfe
    have hgrow : (if t.len + 1 > max_load t.capacity
        then t.adjust_capacity (grow_capacity t.capacity) else some t) = some t := by
      rw [if_neg hg]
    have hset := Table.set_eq t t key v i hgrow hfe
    have hlen' : (if (slotAt t.entries i).key.isNone ∧
        (slotAt t.entries i).value = Value.nil then t.len + 1 else t.len) ≠ 0 := by
      by_cases hc : (slotAt t.entries i).is_free = true
      · rw [if_pos ((Entry.free_cond _).mpr hc)]
        omega
      · have : 0 < used_count t.entries :=
          used_count_pos t.entries i hilt (by
            cases h0 : (slotAt t.entries i).is_free
            · rfl
            · exact absurd h0 hc)
        split <;> omega
    refine ⟨t, i, _, _, by rw [if_neg hg], hfe, hset, rfl, rfl, ?_, ?_, ?_⟩
    · exact if_congr (Entry.free_cond _) rfl rfl
    · show (t.entries.set i ⟨some key, v⟩).length = _
      rw [List.length_set, if_neg hg]
      rfl
    · exact Table.get_eq_some_of_slot _ key i v hlen'
        (find_entry_set_self t.entries key v i hcap1 hfe)
        (show slotAt (t.entries.set i ⟨some key, v⟩) i = ⟨some key, v⟩ from
          slotAt_set_self t.entries i _ hilt)

/-- Witness for `set_spec_amended`: inserting into the empty table (which
triggers the initial growth to capacity 8). -/
theorem set_spec_amended_witness :
    Table.new.len = used_count Table.new.entries ∧
    (keys_of Table.new.entries).Nodup ∧
    ∃ t1 i t' b,
      (if Table.new.len + 1 > max_load Table.new.capacity
        then Table.new.adjust_capacity (grow_capacity Table.new.capacity) = some t1
        else t1 = Table.new) ∧
      find_entry t1.entries ⟨0, [], 0⟩ = some i ∧
      Table.new.set ⟨0, [], 0⟩ (Value.bool true) = some (t', b) ∧
      t'.get ⟨0, [], 0⟩ = some (some (Value.bool true)) := by
  obtain ⟨t1, i, t', b, h1, h2, h3, _, _, _, _, h8⟩ :=
    set_spec_amended Table.new ⟨0, [], 0⟩ (Value.bool true) (by decide) (by decide)
  exact ⟨by decide, by decide, t1, i, t', b, h1, h2, h3, h8⟩

/-! ### Claim C5 -/

lemma all_free_of_used_zero (l : List Entry) (h : used_count l = 0) (i : Nat)
    (hi : i < l.length) : (slotAt l i).is_free = true := by
  cases h0 : (slotAt l i).is_free with
  | true => rfl
  | false =>
    have := used_count_pos l i hi h0
    omega

lemma Table.find_string_eq_aux (t : Table) (s : List Nat) (h : Nat) (hlen : t.len ≠ 0) :
    t.find_string s h = find_string_aux t.entries s h (h % t.entries.length) t.entries.length := by
  unfold Table.find_string
  rw [if_neg hlen]

lemma copy_string_found (a : Allocator) (s : List Nat) (obj : ObjString)
    (h : a.strings.find_string s (hash s) = some (some obj)) :
    a.copy_string s = some (obj, a) := by
  unfold Allocator.copy_string
  rw [h]

lemma copy_string_miss (a : Allocator) (s : List Nat)
    (h : a.strings.find_string s (hash s) = some none) :
    a.copy_string s = a.new_string_object s := by
  unfold Allocator.copy_string
  rw [h]

lemma new_string_object_eq (a : Allocator) (s : List Nat) (st : Table) (b : Bool)
    (hset : a.strings.set ⟨a.next_id, s, hash s⟩ Value.nil = some (st, b)) :
    a.new_string_object s =
      some (⟨a.next_id, s, hash s⟩,
        ⟨a.next_id + 1, ⟨a.next_id, s, hash s⟩ :: a.objects, st⟩) := by
  show (match a.strings.set ⟨a.next_id, s, hash s⟩ Value.nil with
    | none => (none : Option (ObjString × Allocator))
    | some (strings1, _) =>
      some ((⟨a.next_id, s, hash s⟩ : ObjString),
        (⟨a.next_id + 1, ⟨a.next_id, s, hash s⟩ :: a.objects, strings1⟩ : Allocator))) = _
  rw [hset]

lemma find_string_aux_of_free_pos (entries : List Entry) (s : List Nat) (h : Nat)
    (idx fuel : Nat) (hpos : 0 < fuel)
    (hf : (slotAt entries idx).is_free = true) :
    find_string_aux entries s h idx fuel = some none := by
  cases fuel with
  | zero => omega
  | succ n => exact find_string_aux_of_free entries s h idx n hf

/-- Inserting a fresh string object into the intern table makes it findable
by content: the heart of the interning argument.  `obj` must be a fresh
pointer (no stored key equals it) with content no stored key has, and the
pre-insert probe must have missed. -/
lemma intern_insert_find (t : Table) (obj : ObjString)
    (hlen_eq : t.len = used_count t.entries)
    (hnodup : (keys_of t.entries).Nodup)
    (hfresh : ∀ e ∈ t.entries, ∀ k, e.key = some k → k ≠ obj)
    (hnostr : ∀ e ∈ t.entries, ∀ k, e.key = some k → k.str ≠ obj.str)
    (hmiss : t.find_string obj.str obj.hash = some none) :
    ∃ t' b, t.set obj Value.nil = some (t', b) ∧
      t'.find_string obj.str obj.hash = some (some obj) := by
  by_cases hg : t.len + 1 > max_load t.capacity
  · -- growth path
    have hlive : live_count t.entries < grow_capacity t.capacity := by
      have h1 := live_count_le_used t.entries
      have h2 := used_count_le_length t.entries
      have h3 := grow_capacity_gt t.capacity
      have h4 : t.capacity = t.entries.length := rfl
      omega
    obtain ⟨t1, hrun, hlen1, hnt1, hlenlive, hlive1, _, h7⟩ :=
      adjust_capacity_spec t (grow_capacity t.capacity) hnodup hlive
    have hfresh1 : ∀ jj k, jj < t1.entries.length → (slotAt t1.entries jj).key = some k →
        k ≠ obj := by
      intro jj k hjj hk
      have hmem := h7 jj (by rw [← hlen1]; exact hjj) k hk
      exact hfresh _ hmem k hk
    have hnostr1 : ∀ jj k, jj < t1.entries.length → (slotAt t1.entries jj).key = some k →
        k.str ≠ obj.str := by
      intro jj k hjj hk
      have hmem := h7 jj (by rw [← hlen1]; exact hjj) k hk
      exact hnostr _ hmem k hk
    have hfree1 : ∃ m, m < t1.entries.length ∧ (slotAt t1.entries m).is_free = true := by
      apply exists_free_of_used_lt
      rw [no_tombstones_used_eq_live t1.entries hnt1, hlive1, hlenlive, hlen1]
      exact hlive
    obtain ⟨i, hfe⟩ := find_entry_isSome t1.entries obj hfree1
    have hcap1 : 0 < t1.entries.length := by
      obtain ⟨m, hm, _⟩ := hfree1
      omega
    have hilt : i < t1.entries.length := by
      unfold find_entry at hfe
      exact find_entry_aux_lt t1.entries obj t1.entries.length _ none i
        (Nat.mod_lt _ hcap1) (fun x hx => by cases hx) hfe
    have hgrow : (if t.len + 1 > max_load t.capacity
        then t.adjust_capacity (grow_capacity t.capacity) else some t) = some t1 := by
      rw [if_pos hg, hrun]
    have hset := Table.set_eq t t1 obj Value.nil i hgrow hfe
    -- the found slot is free (a match is impossible: obj is fresh)
    have hifree : (slotAt t1.entries i).is_free = true := by
      rcases find_entry_aux_ret t1.entries obj t1.entries.length
          (obj.hash % t1.entries.length) none i (fun x hx => by cases hx) hfe with
        hc | hc | hc
      · exact hc
      · exact absurd (hnt1 _ (slotAt_mem t1.entries i hilt)) (by rw [hc]; intro h0; cases h0)
      · exact absurd rfl (hfresh1 i obj hilt hc)
    have hlen' : (if (slotAt t1.entries i).key.isNone ∧
        (slotAt t1.entries i).value = Value.nil then t1.len + 1 else t1.len) ≠ 0 := by
      rw [if_pos ((Entry.free_cond _).mpr hifree)]
      omega
    -- the pre-insert probe over the rehashed array misses
    obtain ⟨m, hm, hmf⟩ := hfree1
    obtain ⟨j, hj, hje⟩ := exists_probe_offset t1.entries.length
      (obj.hash % t1.entries.length) m (Nat.mod_lt _ hcap1) hm
    have hmiss1 : find_string_aux t1.entries obj.str obj.hash
        (obj.hash % t1.entries.length) t1.entries.length = some none :=
      find_string_aux_none t1.entries obj.str obj.hash t1.entries.length
        (obj.hash % t1.entries.length) (Nat.mod_lt _ hcap1)
        ⟨j, hj, by rw [hje]; exact hmf⟩ hnostr1
    have hins := find_string_aux_after_insert t1.entries obj Value.nil
      t1.entries.length (obj.hash % t1.entries.length) none i (Nat.mod_lt _ hcap1)
      (fun x hx => by cases hx) hfresh1 hmiss1 hfe
    refine ⟨_, _, hset, ?_⟩
    rw [Table.find_string_eq_aux _ _ _ hlen']
    show find_string_aux (t1.entries.set i ⟨some obj, Value.nil⟩) obj.str obj.hash
      (obj.hash % (t1.entries.set i ⟨some obj, Value.nil⟩).length)
      (t1.entries.set i ⟨some obj, Value.nil⟩).length = some (some obj)
    rw [List.length_set]
    exact hins
  · -- no growth
    have hcap0 : 0 < t.capacity := by
      unfold max_load at hg
      omega
    have hlen_lt : t.len < t.entries.length := by
      unfold max_load Table.capacity at hg
      omega
    have hfree1 : ∃ m, m < t.entries.length ∧ (slotAt t.entries m).is_free = true := by
      apply exists_free_of_used_lt
      omega
    obtain ⟨i, hfe⟩ := find_entry_isSome t.entries obj hfree1
    have hcap1 : 0 < t.entries.length := hcap0
    have hilt : i < t.entries.length := by
      unfold find_entry at hfe
      exact find_entry_aux_lt t.entries obj t.entries.length _ none i
        (Nat.mod_lt _ hcap1) (fun x hx => by cases hx) hfe
    have hgrow : (if t.len + 1 > max_load t.capacity
        then t.adjust_capacity (grow_capacity t.capacity) else some t) = some t := by
      rw [if_neg hg]
    have hset := Table.set_eq t t obj Value.nil i hgrow hfe
    have hfresh1 : ∀ jj k, jj < t.entries.length → (slotAt t.entries jj).key = some k →
        k ≠ obj := by
      intro jj k hjj hk
      exact hfresh _ (slotAt_mem t.entries jj hjj) k hk
    have hnostr1 : ∀ jj k, jj < t.entries.length → (slotAt t.entries jj).key = some k →
        k.str ≠ obj.str := by
      intro jj k hjj hk
      exact hnostr _ (slotAt_mem t.entries jj hjj) k hk
    have hlen' : (if (slotAt t.entries i).key.isNone ∧
        (slotAt t.entries i).value = Value.nil then t.len + 1 else t.len) ≠ 0 := by
      rcases find_entry_aux_ret t.entries obj t.entries.length
          (obj.hash % t.entries.length) none i (fun x hx => by cases hx) hfe with
        hc | hc | hc
      · rw [if_pos ((Entry.free_cond _).mpr hc)]
        omega
      · have : 0 < used_count t.entries := by
          apply used_count_pos t.entries i hilt
          obtain ⟨hk0, hv0⟩ := (Entry.is_tombstone_iff _).mp hc
          cases h0 : (slotAt t.entries i).is_free with
          | true => exact absurd ((Entry.is_free_iff _).mp h0).2 hv0
          | false => rfl
        split <;> omega
      · exact absurd rfl (hfresh1 i obj hilt hc)
    -- pre-insert probe misses at the aux level
    have hmiss1 : find_string_aux t.entries obj.str obj.hash
        (obj.hash % t.entries.length) t.entries.length = some none := by
      by_cases hl0 : t.len = 0
      · have hifree0 : (slotAt t.entries (obj.hash % t.entries.length)).is_free = true :=
          all_free_of_used_zero t.entries (by omega) _ (Nat.mod_lt _ hcap1)
        exact find_string_aux_of_free_pos t.entries obj.str obj.hash _ _ hcap1 hifree0
      · rw [Table.find_string_eq_aux t obj.str obj.hash hl0] at hmiss
        exact hmiss
    have hins := find_string_aux_after_insert t.entries obj Value.nil
      t.entries.length (obj.hash % t.entries.length) none i (Nat.mod_lt _ hcap1)
      (fun x hx => by cases hx) hfresh1 hmiss1 hfe
    refine ⟨_, _, hset, ?_⟩
    rw [Table.find_string_eq_aux _ _ _ hlen']
    show find_string_aux (t.entries.set i ⟨some obj, Value.nil⟩) obj.str obj.hash
      (obj.hash % (t.entries.set i ⟨some obj, Value.nil⟩).length)
      (t.entries.set i ⟨some obj, Value.nil⟩).length = some (some obj)
    rw [List.length_set]
    exact hins

/-- Well-formedness of the allocator's intern table, true of every state
the program can reach: `len` counts the non-free slots, stored keys are
distinct pointers with correct hashes, every interned string is findable by
content, pointer identities are below the allocation counter, and the load
factor ensures a free slot whenever the table is non-empty. -/
structure AllocWF (a : Allocator) : Prop where
  len_eq : a.strings.len = used_count a.strings.entries
  nodup : (keys_of a.strings.entries).Nodup
  hash_ok : ∀ e ∈ a.strings.entries, ∀ k, e.key = some k → k.hash = hash k.str
  findable : ∀ e ∈ a.strings.entries, ∀ k, e.key = some k →
    a.strings.find_string k.str k.hash = some (some k)
  fresh : ∀ e ∈ a.strings.entries, ∀ k, e.key = some k → k.id < a.next_id
  load_ok : a.strings.len < a.strings.capacity ∨ a.strings.capacity = 0

/-- C5: interning.  From any well-formed allocator state, two successive
`copy_string` calls with byte-equal contents return the SAME object handle:
the second probe finds the string the first call interned (or both find the
same already-interned string). -/
theorem copy_string_interning (a : Allocator) (s1 s2 : List Nat)
    (hwf : AllocWF a) (heq : s1 = s2) :
    ∃ h1 a1 h2 a2, a.copy_string s1 = some (h1, a1) ∧
      a1.copy_string s2 = some (h2, a2) ∧ h1 = h2 := by
  subst heq
  -- the first probe terminates
  have hprobe : ∃ r, a.strings.find_string s1 (hash s1) = some r := by
    by_cases hl0 : a.strings.len = 0
    · refine ⟨none, ?_⟩
      unfold Table.find_string
      rw [if_pos hl0]
    · have hcap : 0 < a.strings.entries.length := by
        rcases hwf.load_ok with hc | hc
        · exact Nat.lt_of_le_of_lt (Nat.zero_le _) hc
        · exfalso
          have h2 := used_count_le_length a.strings.entries
          have h3 : a.strings.entries.length = 0 := hc
          have h4 := hwf.len_eq
          omega
      have hfree : ∃ m, m < a.strings.entries.length ∧
          (slotAt a.strings.entries m).is_free = true := by
        apply exists_free_of_used_lt
        rcases hwf.load_ok with hc | hc
        · have h4 := hwf.len_eq
          have h5 : a.strings.capacity = a.strings.entries.length := rfl
          omega
        · exfalso
          have h3 : a.strings.entries.length = 0 := hc
          omega
      obtain ⟨m, hm, hmf⟩ := hfree
      obtain ⟨j, hj, hje⟩ := exists_probe_offset a.strings.entries.length
        (hash s1 % a.strings.entries.length) m (Nat.mod_lt _ hcap) hm
      have := find_string_aux_isSome a.strings.entries s1 (hash s1)
        a.strings.entries.length (hash s1 % a.strings.entries.length)
        (Nat.mod_lt _ hcap) ⟨j, hj, by rw [hje]; exact hmf⟩
      obtain ⟨r, hr⟩ := Option.isSome_iff_exists.mp this
      refine ⟨r, ?_⟩
      rw [Table.find_string_eq_aux a.strings s1 (hash s1) hl0]
      exact hr
  obtain ⟨r, hr⟩ := hprobe
  rcases r with _ | obj
  · -- miss: allocate, intern, and find it back
    have hmiss2 : a.strings.find_string (⟨a.next_id, s1, hash s1⟩ : ObjString).str
        (⟨a.next_id, s1, hash s1⟩ : ObjString).hash = some none := hr
    obtain ⟨st, b, hset, hfind2⟩ := intern_insert_find a.strings ⟨a.next_id, s1, hash s1⟩
      hwf.len_eq hwf.nodup
      (fun e he k hk => by
        intro hc
        have h1 := hwf.fresh e he k hk
        rw [hc] at h1
        have h2 : (⟨a.next_id, s1, hash s1⟩ : ObjString).id = a.next_id := rfl
        omega)
      (fun e he k hk => by
        intro hc
        have hh := hwf.hash_ok e he k hk
        have hf := hwf.findable e he k hk
        rw [hc] at hh hf
        rw [hh] at hf
        rw [hf] at hmiss2
        cases hmiss2)
      hmiss2
    have hnew := new_string_object_eq a s1 st b hset
    refine ⟨⟨a.next_id, s1, hash s1⟩,
      ⟨a.next_id + 1, ⟨a.next_id, s1, hash s1⟩ :: a.objects, st⟩,
      ⟨a.next_id, s1, hash s1⟩,
      ⟨a.next_id + 1, ⟨a.next_id, s1, hash s1⟩ :: a.objects, st⟩, ?_, ?_, rfl⟩
    · rw [copy_string_miss a s1 hr]
      exact hnew
    · exact copy_string_found _ s1 _ hfind2
  · -- hit: both calls return the stored handle, the state does not change
    exact ⟨obj, a, obj, a, copy_string_found a s1 obj hr,
      copy_string_found a s1 obj hr, rfl⟩

/-- Witness for `copy_string_interning`: interning "a" twice from the empty
allocator. -/
theorem copy_string_interning_witness :
    ∃ h1 a1 h2 a2, Allocator.new.copy_string [97] = some (h1, a1) ∧
      a1.copy_string [97] = some (h2, a2) ∧ h1 = h2 := by
  refine copy_string_interning Allocator.new [97] [97] ?_ rfl
  refine ⟨rfl, by decide, ?_, ?_, ?_, Or.inr rfl⟩
  all_goals intro e he
  all_goals exact absurd he (List.not_mem_nil e)

/-! ## Virtual machine (src/vm.rs)

The VM executes decoded instructions (the `Instruction` record of
src/chunk.rs).  `Vm.step` is the body of the `for` loop of `Vm::run` for
one instruction: it returns the updated machine, a `Return` result, a
runtime error, a Rust panic (`unwrap`/`expect`/`unimplemented!`), or
divergence inside the intern-table probe.  The output sink collects the
printed values (their textual formatting is out of scope). -/

/-- The opcode set used by src/vm.rs and src/compiler.rs.  (The stale
`OpCode` enum in the snapshot's src/chunk.rs carries only the first seven;
the full set is taken from the match arms of `Vm::run` and the emissions of
the compiler, in the spec's §4.2 table order.) -/
inductive OpCode where
  | constant | opNil | opTrue | opFalse | pop
  | defineGlobal | getGlobal
  | equal | greater | less
  | add | subtract | multiply | divide
  | opNot | negate | print | opReturn
deriving DecidableEq, Repr

/-- `InstructionKind`, src/chunk.rs lines 241-245. -/
inductive InstructionKind where
  | simple
  | constant (v : Value) (idx : Nat)
deriving DecidableEq, Repr

/-- `Instruction`, src/chunk.rs lines 204-208. -/
structure Instruction where
  kind : InstructionKind
  opcode : OpCode
deriving DecidableEq, Repr

inductive InvalidTypeErrorKind where
  | expectedNumberOperand
  | expectedNumberOrStringOperand
deriving DecidableEq, Repr

inductive RuntimeError where
  | invalidType (value : Value) (kind : InvalidTypeErrorKind)
  | invalidTypes (values : List Value) (kind : InvalidTypeErrorKind)
  | undefinedVariable (name : List Nat)
deriving DecidableEq, Repr

/-- `InterpretError` (src/vm.rs lines 13-26) without the `Compile` variant,
which `Vm::run` itself never produces. -/
inductive InterpretError where
  | genericRuntime
  | runtime (source : RuntimeError) (line : Nat)
  | unknownOpCode (b : Nat)
deriving DecidableEq, Repr

structure Vm where
  stack : List Value
  objects : Allocator
  globals : Table
  output : List Value
deriving DecidableEq, Repr

inductive StepResult where
  | next (vm : Vm)
  | ret (vm : Vm) (v : Value)
  | err (e : InterpretError)
  | panic
  | diverge
deriving DecidableEq, Repr

inductive PopNum where
  | ok (n : Rat) (vm : Vm)
  | err (e : InterpretError)
  | panic
deriving DecidableEq, Repr

/-- `Vm::pop_number`, src/vm.rs lines 283-302: pop (GenericRuntime when the
stack is empty), convert to a number (else a Runtime `InvalidType` error
whose line is `chunk.lines[offset]`, panicking if that index is missing). -/
def Vm.pop_number (vm : Vm) (err_kind : InvalidTypeErrorKind) (chunk : Chunk)
    (offset : Nat) : PopNum :=
  match vm.stack with
  | [] => PopNum.err InterpretError.genericRuntime
  | v :: rest =>
    match v with
    | Value.number n => PopNum.ok n { vm with stack := rest }
    | _ =>
      match chunk.lines.get? offset with
      | some line =>
        PopNum.err (InterpretError.runtime (RuntimeError.invalidType v err_kind) line)
      | none => PopNum.panic

/-- One iteration of the dispatch loop of `Vm::run`, src/vm.rs lines
111-277, for the decoded `instruction` found at `offset`. -/
def Vm.step (vm : Vm) (chunk : Chunk) (offset : Nat) (instruction : Instruction) :
    StepResult :=
  match instruction.opcode, instruction.kind with
  | OpCode.opReturn, _ =>
    match vm.stack with
    | [] => StepResult.ret vm Value.nil
    | v :: rest => StepResult.ret { vm with stack := rest } v
  | OpCode.opNil, _ => StepResult.next { vm with stack := Value.nil :: vm.stack }
  | OpCode.opFalse, _ => StepResult.next { vm with stack := Value.bool false :: vm.stack }
  | OpCode.opTrue, _ => StepResult.next { vm with stack := Value.bool true :: vm.stack }
  | OpCode.equal, _ =>
    match vm.stack with
    | [] => StepResult.err InterpretError.genericRuntime
    | [_] => StepResult.err InterpretError.genericRuntime
    | vb :: va :: rest =>
      StepResult.next { vm with stack := Value.bool (decide (va = vb)) :: rest }
  | OpCode.greater, _ =>
    match vm.pop_number InvalidTypeErrorKind.expectedNumberOperand chunk offset with
    | PopNum.err e => StepResult.err e
    | PopNum.panic => StepResult.panic
    | PopNum.ok vb vm1 =>
      match vm1.pop_number InvalidTypeErrorKind.expectedNumberOperand chunk offset with
      | PopNum.err e => StepResult.err e
      | PopNum.panic => StepResult.panic
      | PopNum.ok va vm2 =>
        StepResult.next { vm2 with stack := Value.bool (decide (va > vb)) :: vm2.stack }
  | OpCode.less, _ =>
    match vm.pop_number InvalidTypeErrorKind.expectedNumberOperand chunk offset with
    | PopNum.err e => StepResult.err e
    | PopNum.panic => StepResult.panic
    | PopNum.ok vb vm1 =>
      match vm1.pop_number InvalidTypeErrorKind.expectedNumberOperand chunk offset with
      | PopNum.err e => StepResult.err e
      | PopNum.panic => StepResult.panic
      | PopNum.ok va vm2 =>
        StepResult.next { vm2 with stack := Value.bool (decide (va < vb)) :: vm2.stack }
  | OpCode.add, _ =>
    match vm.stack with
    | [] => StepResult.err InterpretError.genericRuntime
    | [_] => StepResult.err InterpretError.genericRuntime
    | vb :: va :: rest =>
      match va, vb with
      | Value.number a, Value.number b =>
        StepResult.next { vm with stack := Value.number (a + b) :: rest }
      | Value.object oa, Value.object ob =>
        -- both objects are strings: `ObjectKind::String` is the only kind
        match vm.objects.take_string (oa.str ++ ob.str) with
        | none => StepResult.diverge
        | some (obj, objects1) =>
          StepResult.next { vm with stack := Value.object obj :: rest, objects := objects1 }
      | va, vb =>
        match chunk.lines.get? offset with
        | some line =>
          StepResult.err (InterpretError.runtime
            (RuntimeError.invalidTypes [va, vb]
              InvalidTypeErrorKind.expectedNumberOrStringOperand) line)
        | none => StepResult.panic
  | OpCode.subtract, _ =>
    match vm.pop_number InvalidTypeErrorKind.expectedNumberOperand chunk offset with
    | PopNum.err e => StepResult.err e
    | PopNum.panic => StepResult.panic
    | PopNum.ok vb vm1 =>
      match vm1.pop_number InvalidTypeErrorKind.expectedNumberOperand chunk offset with
      | PopNum.err e => StepResult.err e
      | PopNum.panic => StepResult.panic
      | PopNum.ok va vm2 =>
        StepResult.next { vm2 with stack := Value.number (va - vb) :: vm2.stack }
  | OpCode.multiply, _ =>
    match vm.pop_number InvalidTypeErrorKind.expectedNumberOperand chunk offset with
    | PopNum.err e => StepResult.err e
    | PopNum.panic => StepResult.panic
    | PopNum.ok vb vm1 =>
      match vm1.pop_number InvalidTypeErrorKind.expectedNumberOperand chunk offset with
      | PopNum.err e => StepResult.err e
      | PopNum.panic => StepResult.panic
      | PopNum.ok va vm2 =>
        StepResult.next { vm2 with stack := Value.number (va * vb) :: vm2.stack }
  | OpCode.divide, _ =>
    match vm.pop_number InvalidTypeErrorKind.expectedNumberOperand chunk offset with
    | PopNum.err e => StepResult.err e
    | PopNum.panic => StepResult.panic
    | PopNum.ok vb vm1 =>
      match vm1.pop_number InvalidTypeErrorKind.expectedNumberOperand chunk offset with
      | PopNum.err e => StepResult.err e
      | PopNum.panic => StepResult.panic
      | PopNum.ok va vm2 =>
        StepResult.next { vm2 with stack := Value.number (va / vb) :: vm2.stack }
  | OpCode.opNot, _ =>
    match vm.stack with
    | [] => StepResult.err InterpretError.genericRuntime
    | v :: rest =>
      StepResult.next { vm with stack := Value.bool v.is_falsey :: rest }
  | OpCode.negate, _ =>
    match vm.pop_number InvalidTypeErrorKind.expectedNumberOperand chunk offset with
    | PopNum.err e => StepResult.err e
    | PopNum.panic => StepResult.panic
    | PopNum.ok v vm1 =>
      StepResult.next { vm1 with stack := Value.number (-v) :: vm1.stack }
  | OpCode.print, _ =>
    match vm.stack with
    | [] => StepResult.err InterpretError.genericRuntime
    | v :: rest =>
      StepResult.next { vm with stack := rest, output := vm.output ++ [v] }
  | OpCode.pop, _ =>
    match vm.stack with
    | [] => StepResult.err InterpretError.genericRuntime
    | _ :: rest => StepResult.next { vm with stack := rest }
  | OpCode.constant, InstructionKind.constant v _ =>
    StepResult.next { vm with stack := v :: vm.stack }
  | OpCode.defineGlobal, InstructionKind.constant v _ =>
    match v with
    | Value.object obj =>
      match vm.stack with
      | [] => StepResult.panic
      | value :: rest =>
        match vm.globals.set obj value with
        | none => StepResult.diverge
        | some (globals1, _) =>
          StepResult.next { vm with stack := rest, globals := globals1 }
    | _ => StepResult.panic
  | OpCode.getGlobal, InstructionKind.constant v _ =>
    match v with
    | Value.object obj =>
      match vm.globals.get obj with
      | none => StepResult.diverge
      | some none =>
        match chunk.lines.get? offset with
        | some line =>
          StepResult.err (InterpretError.runtime
            (RuntimeError.undefinedVariable obj.str) line)
        | none => StepResult.panic
      | some (some value) =>
        StepResult.next { vm with stack := value :: vm.stack }
    | _ => StepResult.panic
  | _, _ => StepResult.panic

/-! ### Claim C3 -/

lemma find_string_aux_hit (entries : List Entry) (s : List Nat) (h : Nat) :
    ∀ (fuel idx : Nat) (k : ObjString),
      find_string_aux entries s h idx fuel = some (some k) → k.str = s := by
  intro fuel
  induction fuel with
  | zero => intro idx k hres; cases hres
  | succ n ih =>
    intro idx k hres
    rcases Entry.shape (slotAt entries idx) with hs | hs | hs
    · rw [find_string_aux_of_free entries s h idx n hs] at hres
      cases hres
    · rw [find_string_aux_of_tombstone entries s h idx n hs] at hres
      exact ih _ k hres
    · obtain ⟨k0, hk0⟩ := Option.isSome_iff_exists.mp hs
      rw [find_string_aux_of_key entries s h idx n k0 hk0] at hres
      by_cases hcond : k0.str.length = s.length ∧ k0.hash = h ∧ k0.str = s
      · rw [if_pos hcond] at hres
        cases hres
        exact hcond.2.2
      · rw [if_neg hcond] at hres
        exact ih _ k hres

lemma Table.find_string_hit (t : Table) (s : List Nat) (h : Nat) (k : ObjString)
    (hres : t.find_string s h = some (some k)) : k.str = s := by
  unfold Table.find_string at hres
  by_cases hl : t.len = 0
  · rw [if_pos hl] at hres
    cases hres
  · rw [if_neg hl] at hres
    exact find_string_aux_hit t.entries s h _ _ k hres

/-- In a well-formed allocator the intern probe always terminates. -/
lemma find_string_total (a : Allocator) (hwf : AllocWF a) (s : List Nat) (h0 : Nat) :
    ∃ r, a.strings.find_string s h0 = some r := by
  by_cases hl0 : a.strings.len = 0
  · refine ⟨none, ?_⟩
    unfold Table.find_string
    rw [if_pos hl0]
  · have hcap : 0 < a.strings.entries.length := by
      rcases hwf.load_ok with hc | hc
      · exact Nat.lt_of_le_of_lt (Nat.zero_le _) hc
      · exfalso
        have h2 := used_count_le_length a.strings.entries
        have h3 : a.strings.entries.length = 0 := hc
        have h4 := hwf.len_eq
        omega
    have hfree : ∃ m, m < a.strings.entries.length ∧
        (slotAt a.strings.entries m).is_free = true := by
      apply exists_free_of_used_lt
      rcases hwf.load_ok with hc | hc
      · have h4 := hwf.len_eq
        have h5 : a.strings.capacity = a.strings.entries.length := rfl
        omega
      · exfalso
        have h3 : a.strings.entries.length = 0 := hc
        omega
    obtain ⟨m, hm, hmf⟩ := hfree
    obtain ⟨j, hj, hje⟩ := exists_probe_offset a.strings.entries.length
      (h0 % a.strings.entries.length) m (Nat.mod_lt _ hcap) hm
    have := find_string_aux_isSome a.strings.entries s h0
      a.strings.entries.length (h0 % a.strings.entries.length)
      (Nat.mod_lt _ hcap) ⟨j, hj, by rw [hje]; exact hmf⟩
    obtain ⟨r, hr⟩ := Option.isSome_iff_exists.mp this
    refine ⟨r, ?_⟩
    rw [Table.find_string_eq_aux a.strings s h0 hl0]
    exact hr

lemma take_string_found (a : Allocator) (s : List Nat) (obj : ObjString)
    (h : a.strings.find_string s (hash s) = some (some obj)) :
    a.take_string s = some (obj, a) := by
  unfold Allocator.take_string
  rw [h]

lemma take_string_miss (a : Allocator) (s : List Nat)
    (h : a.strings.find_string s (hash s) = some none) :
    a.take_string s = a.new_string_object s := by
  unfold Allocator.take_string
  rw [h]

/-- From a well-formed allocator, `take_string s` succeeds and the handle it
returns holds exactly the bytes `s` (either the already-interned string with
those bytes, or a freshly allocated one). -/
lemma take_string_spec (a : Allocator) (s : List Nat) (hwf : AllocWF a) :
    ∃ h a1, a.take_string s = some (h, a1) ∧ h.str = s := by
  obtain ⟨r, hr⟩ := find_string_total a hwf s (hash s)
  rcases r with _ | obj
  · have hmiss2 : a.strings.find_string (⟨a.next_id, s, hash s⟩ : ObjString).str
        (⟨a.next_id, s, hash s⟩ : ObjString).hash = some none := hr
    obtain ⟨st, b, hset, _⟩ := intern_insert_find a.strings ⟨a.next_id, s, hash s⟩
      hwf.len_eq hwf.nodup
      (fun e he k hk => by
        intro hc
        have h1 := hwf.fresh e he k hk
        rw [hc] at h1
        have h2 : (⟨a.next_id, s, hash s⟩ : ObjString).id = a.next_id := rfl
        omega)
      (fun e he k hk => by
        intro hc
        have hh := hwf.hash_ok e he k hk
        have hf := hwf.findable e he k hk
        rw [hc] at hh hf
        rw [hh] at hf
        rw [hf] at hmiss2
        cases hmiss2)
      hmiss2
    refine ⟨⟨a.next_id, s, hash s⟩,
      ⟨a.next_id + 1, ⟨a.next_id, s, hash s⟩ :: a.objects, st⟩, ?_, rfl⟩
    rw [take_string_miss a s hr]
    exact new_string_object_eq a s st b hset
  · exact ⟨obj, a, take_string_found a s obj hr,
      Table.find_string_hit a.strings s (hash s) obj hr⟩

/-- C3: the `Add` arm of `Vm::run` pops `b` then `a` and
(1) pushes `Number(a + b)` when both are numbers,
(2) pushes a newly interned string holding the bytes of `a` followed by the
bytes of `b` when both are string objects (any well-formed allocator), and
(3) otherwise fails with
`Runtime{InvalidTypes, ExpectedNumberOrStringOperand, line}` carrying both
operand values and `line = chunk.lines[offset]`. -/
theorem vm_add_semantics (vm : Vm) (chunk : Chunk) (offset : Nat)
    (kind : InstructionKind) (vb va : Value) (rest : List Value)
    (hstack : vm.stack = vb :: va :: rest) :
    (∀ x y, va = Value.number x → vb = Value.number y →
      Vm.step vm chunk offset ⟨kind, OpCode.add⟩ =
        StepResult.next { vm with stack := Value.number (x + y) :: rest }) ∧
    (∀ oa ob, va = Value.object oa → vb = Value.object ob → AllocWF vm.objects →
      ∃ h objects1, vm.objects.take_string (oa.str ++ ob.str) = some (h, objects1) ∧
        h.str = oa.str ++ ob.str ∧
        Vm.step vm chunk offset ⟨kind, OpCode.add⟩ =
          StepResult.next { vm with stack := Value.object h :: rest, objects := objects1 }) ∧
    (∀ line, (∀ x y, ¬ (va = Value.number x ∧ vb = Value.number y)) →
      (∀ oa ob, ¬ (va = Value.object oa ∧ vb = Value.object ob)) →
      chunk.lines.get? offset = some line →
      Vm.step vm chunk offset ⟨kind, OpCode.add⟩ =
        StepResult.err (InterpretError.runtime
          (RuntimeError.invalidTypes [va, vb]
            InvalidTypeErrorKind.expectedNumberOrStringOperand) line)) := by
  refine ⟨?_, ?_, ?_⟩
  · rintro x y rfl rfl
    show Vm.step vm chunk offset ⟨kind, OpCode.add⟩ = _
    unfold Vm.step
    rw [hstack]
  · rintro oa ob rfl rfl hwf
    obtain ⟨h, objects1, htake, hstr⟩ :=
      take_string_spec vm.objects (oa.str ++ ob.str) hwf
    refine ⟨h, objects1, htake, hstr, ?_⟩
    unfold Vm.step
    rw [hstack]
    show (match vm.objects.take_string (oa.str ++ ob.str) with
      | none => StepResult.diverge
      | some (obj, objects1) =>
        StepResult.next { vm with stack := Value.object obj :: rest, objects := objects1 }) = _
    rw [htake]
  · intro line hnn hno hline
    unfold Vm.step
    rw [hstack]
    rcases va with _ | b | x | oa <;> rcases vb with _ | b2 | y | ob
    all_goals first
      | exact absurd ⟨rfl, rfl⟩ (hnn _ _)
      | exact absurd ⟨rfl, rfl⟩ (hno _ _)
      | (show (match chunk.lines.get? offset with
          | some line =>
            StepResult.err (InterpretError.runtime
              (RuntimeError.invalidTypes _ InvalidTypeErrorKind.expectedNumberOrStringOperand)
              line)
          | none => StepResult.panic) = _
         rw [hline])

/-- Witness for `vm_add_semantics`: 2 + 3 pushes 5; nil + true at an
instruction whose line is 7 raises the InvalidTypes error at line 7. -/
theorem vm_add_semantics_witness :
    Vm.step ⟨[Value.number 3, Value.number 2], Allocator.new, Table.new, []⟩
      ⟨[], [], [7]⟩ 0 ⟨InstructionKind.simple, OpCode.add⟩ =
      StepResult.next ⟨[Value.number 5], Allocator.new, Table.new, []⟩ ∧
    Vm.step ⟨[Value.bool true, Value.nil], Allocator.new, Table.new, []⟩
      ⟨[], [], [7]⟩ 0 ⟨InstructionKind.simple, OpCode.add⟩ =
      StepResult.err (InterpretError.runtime
        (RuntimeError.invalidTypes [Value.nil, Value.bool true]
          InvalidTypeErrorKind.expectedNumberOrStringOperand) 7) := by
  constructor
  · have h := (vm_add_semantics ⟨[Value.number 3, Value.number 2], Allocator.new, Table.new, []⟩
      ⟨[], [], [7]⟩ 0 InstructionKind.simple (Value.number 3) (Value.number 2) [] rfl).1
      2 3 rfl rfl
    rw [h]
    norm_num
  · exact (vm_add_semantics ⟨[Value.bool true, Value.nil], Allocator.new, Table.new, []⟩
      ⟨[], [], [7]⟩ 0 InstructionKind.simple (Value.bool true) Value.nil [] rfl).2.2
      7 (fun x y h => by cases h.1) (fun oa ob h => by cases h.1) rfl

/-! ### Claim C10 -/

/-- C10 counterexample: `Subtract` with a single non-number value on the
stack does NOT produce `GenericRuntime` — `pop_number` pops and type-checks
the top value first, so the result is `Runtime{InvalidType}` even though the
instruction is short one operand. -/
theorem subtract_single_bool_invalid_type :
    Vm.step ⟨[Value.bool true], Allocator.new, Table.new, []⟩ ⟨[], [], [7]⟩ 0
      ⟨InstructionKind.simple, OpCode.subtract⟩ =
      StepResult.err (InterpretError.runtime
        (RuntimeError.invalidType (Value.bool true)
          InvalidTypeErrorKind.expectedNumberOperand) 7) ∧
    Vm.step ⟨[Value.bool true], Allocator.new, Table.new, []⟩ ⟨[], [], [7]⟩ 0
      ⟨InstructionKind.simple, OpCode.subtract⟩ ≠
      StepResult.err InterpretError.genericRuntime := by
  exact ⟨rfl, by decide⟩

/-- C10 (amended): on an EMPTY operand stack, Equal, Add, Subtract,
Multiply, Divide, Negate, Not, Greater, Less, Print and Pop all fail with
`GenericRuntime` (no panic); with exactly ONE value present the binary ops
still give `GenericRuntime` when the missing operand is reached first
(always for Equal/Add, and for the numeric binaries when the present value
is a number), but the numeric binaries type-check the present value first
and give `Runtime{InvalidType}` when it is not a number; `DefineGlobal`
with an empty stack panics (`unwrap`), and `Return` with an empty stack
succeeds with result `Nil`. -/
theorem vm_underflow_behavior :
    (∀ op, op ∈ [OpCode.equal, OpCode.add, OpCode.subtract, OpCode.multiply,
        OpCode.divide, OpCode.negate, OpCode.opNot, OpCode.greater, OpCode.less,
        OpCode.print, OpCode.pop] →
      Vm.step ⟨[], Allocator.new, Table.new, []⟩ ⟨[], [], [1]⟩ 0
        ⟨InstructionKind.simple, op⟩ = StepResult.err InterpretError.genericRuntime) ∧
    (∀ op, op ∈ [OpCode.equal, OpCode.add] →
      Vm.step ⟨[Value.bool true], Allocator.new, Table.new, []⟩ ⟨[], [], [1]⟩ 0
        ⟨InstructionKind.simple, op⟩ = StepResult.err InterpretError.genericRuntime) ∧
    (∀ op, op ∈ [OpCode.subtract, OpCode.multiply, OpCode.divide, OpCode.greater,
        OpCode.less] →
      Vm.step ⟨[Value.number 1], Allocator.new, Table.new, []⟩ ⟨[], [], [1]⟩ 0
        ⟨InstructionKind.simple, op⟩ = StepResult.err InterpretError.genericRuntime ∧
      Vm.step ⟨[Value.bool true], Allocator.new, Table.new, []⟩ ⟨[], [], [1]⟩ 0
        ⟨InstructionKind.simple, op⟩ = StepResult.err (InterpretError.runtime
          (RuntimeError.invalidType (Value.bool true)
            InvalidTypeErrorKind.expectedNumberOperand) 1)) ∧
    Vm.step ⟨[], Allocator.new, Table.new, []⟩ ⟨[], [], [1]⟩ 0
      ⟨InstructionKind.constant (Value.object ⟨0, [], 0⟩) 0, OpCode.defineGlobal⟩ =
      StepResult.panic ∧
    Vm.step ⟨[], Allocator.new, Table.new, []⟩ ⟨[], [], [1]⟩ 0
      ⟨InstructionKind.simple, OpCode.opReturn⟩ =
      StepResult.ret ⟨[], Allocator.new, Table.new, []⟩ Value.nil := by
  refine ⟨?_, ?_, ?_, rfl, rfl⟩
  · intro op hop
    fin_cases hop <;> rfl
  · intro op hop
    fin_cases hop <;> rfl
  · intro op hop
    fin_cases hop <;> exact ⟨rfl, rfl⟩

/-! ## Compiler (src/compiler.rs)

The single-pass Pratt compiler, embedded over a pre-scanned stream of
scanner results (`advance` pulls from the stream exactly as the source
pulls from `Scanner::scan_token`: `None` = end of input).  The payload of
the source's `TokenKind::Identifier/String/Number` variants is the token's
lexeme, carried here in `Token.lexeme`; the compiler only ever compares the
payload-free kinds (`None`, `Var`, `Equal`, `Print`, `Semicolon`,
`RightParen`), so the comparison in `check` is faithful.  All mutually
recursive parser functions take fuel; `diverge` reports its exhaustion and
`panic` models the source's `unwrap`/`unreachable!`/`panic!` calls.  The
numeric opcode values are spec-modelled (see `opByte`). -/

/-- Modelled from the spec: the numbering of the full opcode enum (the
snapshot's src/chunk.rs is a stale version with only seven opcodes, while
src/compiler.rs and src/vm.rs use the full set).  §4.2 of the spec lists
the opcodes in this order; only injectivity matters to the claims below. -/
def opByte : OpCode → Nat
  | OpCode.constant => 0
  | OpCode.opNil => 1
  | OpCode.opTrue => 2
  | OpCode.opFalse => 3
  | OpCode.pop => 4
  | OpCode.defineGlobal => 5
  | OpCode.getGlobal => 6
  | OpCode.equal => 7
  | OpCode.greater => 8
  | OpCode.less => 9
  | OpCode.add => 10
  | OpCode.subtract => 11
  | OpCode.multiply => 12
  | OpCode.divide => 13
  | OpCode.opNot => 14
  | OpCode.negate => 15
  | OpCode.print => 16
  | OpCode.opReturn => 17

inductive ScanItem where
  | tok (t : Token)
  | err (e : ScanError)
deriving DecidableEq, Repr

/-- `compiler::Error`. -/
inductive CompError where
  | scanner (e : ScanError)
  | expectedEndOfExpr
  | parserError
  | tooManyConstants
  | expectedToken (token : String) (after : String)
  | expectedExpression
  | expectedVariableName
deriving DecidableEq, Repr

structure Parser where
  previous : Option Token
  current : Option Token
deriving DecidableEq, Repr

structure CompilerState where
  stream : List ScanItem
  parser : Parser
  hadError : Bool
  panicMode : Bool
  chunk : Chunk
  objects : Allocator
  reported : List ScanError
deriving DecidableEq, Repr

inductive CResult (α : Type) where
  | ok (a : α) (s : CompilerState)
  | err (e : CompError) (s : CompilerState)
  | panic
  | diverge
deriving DecidableEq, Repr

/-- `Precedence`, src/compiler.rs lines 64-79 (`repr(u32)` values 0..10). -/
inductive Precedence where
  | none | assignment | logicOr | logicAnd | equality
  | comparison | term | factor | unary | call | primary
deriving DecidableEq, Repr

def Precedence.toNat : Precedence → Nat
  | Precedence.none => 0
  | Precedence.assignment => 1
  | Precedence.logicOr => 2
  | Precedence.logicAnd => 3
  | Precedence.equality => 4
  | Precedence.comparison => 5
  | Precedence.term => 6
  | Precedence.factor => 7
  | Precedence.unary => 8
  | Precedence.call => 9
  | Precedence.primary => 10

/-- The `transmute::<u32, Precedence>` in `binary`; an out-of-range value
is undefined behaviour, modelled as `none` (which `binary` turns into a
panic). -/
def Precedence.fromNat : Nat → Option Precedence
  | 0 => some Precedence.none
  | 1 => some Precedence.assignment
  | 2 => some Precedence.logicOr
  | 3 => some Precedence.logicAnd
  | 4 => some Precedence.equality
  | 5 => some Precedence.comparison
  | 6 => some Precedence.term
  | 7 => some Precedence.factor
  | 8 => some Precedence.unary
  | 9 => some Precedence.call
  | 10 => some Precedence.primary
  | _ => Option.none

/-- The prefix parse functions of the rule table (`nud` in Pratt
terminology). -/
inductive NudTag where
  | grouping | unary | number | strLit | literal | variable
deriving DecidableEq, Repr

/-- The infix parse functions (`led`); the table only ever uses `binary`. -/
inductive LedTag where
  | binary
deriving DecidableEq, Repr

structure ParseRule where
  nud : Option NudTag
  led : Option LedTag
  precedence : Precedence
deriving DecidableEq, Repr

/-- `Compiler::get_rule`, src/compiler.rs lines 456-649. -/
def get_rule : TokenKind → ParseRule
  | TokenKind.leftParen => ⟨some NudTag.grouping, Option.none, Precedence.none⟩
  | TokenKind.rightParen => ⟨Option.none, Option.none, Precedence.none⟩
  | TokenKind.leftBrace => ⟨Option.none, Option.none, Precedence.none⟩
  | TokenKind.rightBrace => ⟨Option.none, Option.none, Precedence.none⟩
  | TokenKind.semicolon => ⟨Option.none, Option.none, Precedence.none⟩
  | TokenKind.comma => ⟨Option.none, Option.none, Precedence.none⟩
  | TokenKind.dot => ⟨Option.none, Option.none, Precedence.none⟩
  | TokenKind.minus => ⟨some NudTag.unary, some LedTag.binary, Precedence.term⟩
  | TokenKind.plus => ⟨Option.none, some LedTag.binary, Precedence.term⟩
  | TokenKind.slash => ⟨Option.none, some LedTag.binary, Precedence.factor⟩
  | TokenKind.star => ⟨Option.none, some LedTag.binary, Precedence.factor⟩
  | TokenKind.bang => ⟨some NudTag.unary, Option.none, Precedence.none⟩
  | TokenKind.bangEqual => ⟨Option.none, some LedTag.binary, Precedence.equality⟩
  | TokenKind.equal => ⟨Option.none, Option.none, Precedence.none⟩
  | TokenKind.equalEqual => ⟨Option.none, some LedTag.binary, Precedence.equality⟩
  | TokenKind.greater => ⟨Option.none, some LedTag.binary, Precedence.comparison⟩
  | TokenKind.greaterEqual => ⟨Option.none, some LedTag.binary, Precedence.comparison⟩
  | TokenKind.less => ⟨Option.none, some LedTag.binary, Precedence.comparison⟩
  | TokenKind.lessEqual => ⟨Option.none, some LedTag.binary, Precedence.comparison⟩
  | TokenKind.identifier => ⟨some NudTag.variable, Option.none, Precedence.none⟩
  | TokenKind.string => ⟨some NudTag.strLit, Option.none, Precedence.none⟩
  | TokenKind.number => ⟨some NudTag.number, Option.none, Precedence.none⟩
  | TokenKind.kwAnd => ⟨Option.none, Option.none, Precedence.none⟩
  | TokenKind.kwClass => ⟨Option.none, Option.none, Precedence.none⟩
  | TokenKind.kwElse => ⟨Option.none, Option.none, Precedence.none⟩
  | TokenKind.kwFalse => ⟨some NudTag.literal, Option.none, Precedence.none⟩
  | TokenKind.kwFor => ⟨Option.none, Option.none, Precedence.none⟩
  | TokenKind.kwFun => ⟨Option.none, Option.none, Precedence.none⟩
  | TokenKind.kwIf => ⟨Option.none, Option.none, Precedence.none⟩
  | TokenKind.kwNil => ⟨some NudTag.literal, Option.none, Precedence.none⟩
  | TokenKind.kwOr => ⟨Option.none, Option.none, Precedence.none⟩
  | TokenKind.kwPrint => ⟨Option.none, Option.none, Precedence.none⟩
  | TokenKind.kwReturn => ⟨Option.none, Option.none, Precedence.none⟩
  | TokenKind.kwSuper => ⟨Option.none, Option.none, Precedence.none⟩
  | TokenKind.kwThis => ⟨Option.none, Option.none, Precedence.none⟩
  | TokenKind.kwTrue => ⟨some NudTag.literal, Option.none, Precedence.none⟩
  | TokenKind.kwVar => ⟨Option.none, Option.none, Precedence.none⟩
  | TokenKind.kwWhile => ⟨Option.none, Option.none, Precedence.none⟩
  | TokenKind.eof => ⟨Option.none, Option.none, Precedence.none⟩

/-- Decimal value of a digit string. -/
def digitsToNat (l : List Nat) : Nat :=
  l.foldl (fun acc c => acc * 10 + (c - 48)) 0

/-- Abstraction of `str::parse::<f64>()` over `Rat` for the number lexemes
the scanner produces (digits, optionally a dot followed by digits); other
inputs yield `none` (and the caller's `unwrap` a panic). -/
def parseNumber (s : List Nat) : Option Rat :=
  if s = [] then Option.none
  else if s.all fun c => decide (48 ≤ c) && decide (c ≤ 57) then
    some (digitsToNat s : Rat)
  else
    match s.splitOn 46 with
    | [intPart, fracPart] =>
      if intPart ≠ [] ∧ fracPart ≠ [] ∧
          (intPart.all fun c => decide (48 ≤ c) && decide (c ≤ 57)) ∧
          (fracPart.all fun c => decide (48 ≤ c) && decide (c ≤ 57)) then
        some ((digitsToNat intPart : Rat) +
          (digitsToNat fracPart : Rat) / ((10 : Rat) ^ fracPart.length))
      else Option.none
    | _ => Option.none

/-- The token-pulling loop inside `Compiler::advance`, src/compiler.rs
lines 123-141: pull until a token or end of input, reporting the first
scanner error of a burst (`panic_mode` suppresses the rest) and latching
`had_error`. -/
def advance_loop : List ScanItem → Bool → Bool → List ScanError →
    List ScanItem × Option Token × Bool × Bool × List ScanError
  | [], had, panic, rep => ([], Option.none, had, panic, rep)
  | ScanItem.tok t :: rest, had, panic, rep => (rest, some t, had, panic, rep)
  | ScanItem.err e :: rest, _, panic, rep =>
    advance_loop rest true true (if panic then rep else rep ++ [e])

/-- `Compiler::advance`, src/compiler.rs lines 120-148.  NOTE the tail:
it returns `Err(ParserError)` whenever `had_error` is set — once any
scanner error has been recorded, EVERY subsequent `advance` fails. -/
def Compiler.advance (s : CompilerState) : CResult Unit :=
  match advance_loop s.stream s.hadError s.panicMode s.reported with
  | (stream1, cur, had1, panic1, rep1) =>
    let s1 : CompilerState := { s with
      stream := stream1,
      parser := ⟨s.parser.current, cur⟩,
      hadError := had1, panicMode := panic1, reported := rep1 }
    if s1.hadError then CResult.err CompError.parserError s1 else CResult.ok () s1

/-- `Compiler::check`. -/
def Compiler.check (s : CompilerState) (kind : Option TokenKind) : Bool :=
  decide (s.parser.current.map Token.kind = kind)

/-- `Compiler::matches`. -/
def Compiler.matches (s : CompilerState) (kind : Option TokenKind) : CResult Bool :=
  if Compiler.check s kind then
    match Compiler.advance s with
    | CResult.ok _ s1 => CResult.ok true s1
    | CResult.err e s1 => CResult.err e s1
    | CResult.panic => CResult.panic
    | CResult.diverge => CResult.diverge
  else CResult.ok false s

/-- `Compiler::consume`. -/
def Compiler.consume (s : CompilerState) (kind : Option TokenKind) (e : CompError) :
    CResult Unit :=
  if Compiler.check s kind then Compiler.advance s
  else CResult.err e s

/-- `Compiler::emit_byte`: the line is the PREVIOUS token's (0 when there
is none). -/
def Compiler.emit_byte (s : CompilerState) (byte : Nat) : CompilerState :=
  { s with chunk := s.chunk.write byte ((s.parser.previous.map Token.line).getD 0) }

def Compiler.emit_two (s : CompilerState) (b1 b2 : Nat) : CompilerState :=
  Compiler.emit_byte (Compiler.emit_byte s b1) b2

/-- `Compiler::make_constant`: push the value, fail `TooManyConstants` when
the index does not fit a byte (the constant stays pushed). -/
def Compiler.make_constant (s : CompilerState) (v : Value) : CResult Nat :=
  match s.chunk.write_constant v with
  | (c1, idx) =>
    if idx ≤ 255 then CResult.ok idx { s with chunk := c1 }
    else CResult.err CompError.tooManyConstants { s with chunk := c1 }

/-- `Compiler::emit_constant`. -/
def Compiler.emit_constant (s : CompilerState) (v : Value) : CResult Unit :=
  match Compiler.make_constant s v with
  | CResult.ok idx s1 => CResult.ok () (Compiler.emit_two s1 (opByte OpCode.constant) idx)
  | CResult.err e s1 => CResult.err e s1
  | CResult.panic => CResult.panic
  | CResult.diverge => CResult.diverge

/-- `Compiler::identifier_constant`. -/
def Compiler.identifier_constant (s : CompilerState) (obj : ObjString) : CResult Nat :=
  Compiler.make_constant s (Value.object obj)

/-- `Compiler::define_variable`. -/
def Compiler.define_variable (s : CompilerState) (global : Nat) : CompilerState :=
  Compiler.emit_two s (opByte OpCode.defineGlobal) global

/-- `Compiler::number` (prefix rule). -/
def Compiler.number (s : CompilerState) : CResult Unit :=
  match s.parser.previous with
  | Option.none => CResult.panic
  | some prev =>
    if prev.kind = TokenKind.number then
      match parseNumber prev.lexeme with
      | Option.none => CResult.panic
      | some q => Compiler.emit_constant s (Value.number q)
    else CResult.panic

/-- `Compiler::string` (prefix rule): intern the lexeme via the allocator
and emit it as an object constant. -/
def Compiler.strLit (s : CompilerState) : CResult Unit :=
  match s.parser.previous with
  | Option.none => CResult.panic
  | some prev =>
    if prev.kind = TokenKind.string then
      match s.objects.copy_string prev.lexeme with
      | Option.none => CResult.diverge
      | some (obj, objects1) =>
        Compiler.emit_constant { s with objects := objects1 } (Value.object obj)
    else CResult.panic

/-- `Compiler::literal` (prefix rule). -/
def Compiler.literal (s : CompilerState) : CResult Unit :=
  match s.parser.previous with
  | Option.none => CResult.panic
  | some prev =>
    match prev.kind with
    | TokenKind.kwNil => CResult.ok () (Compiler.emit_byte s (opByte OpCode.opNil))
    | TokenKind.kwFalse => CResult.ok () (Compiler.emit_byte s (opByte OpCode.opFalse))
    | TokenKind.kwTrue => CResult.ok () (Compiler.emit_byte s (opByte OpCode.opTrue))
    | _ => CResult.panic

/-- `Compiler::named_variable`. -/
def Compiler.named_variable (s : CompilerState) (obj : ObjString) : CResult Unit :=
  match Compiler.identifier_constant s obj with
  | CResult.ok arg s1 => CResult.ok () (Compiler.emit_two s1 (opByte OpCode.getGlobal) arg)
  | CResult.err e s1 => CResult.err e s1
  | CResult.panic => CResult.panic
  | CResult.diverge => CResult.diverge

/-- `Compiler::variable` (prefix rule). -/
def Compiler.variable (s : CompilerState) : CResult Unit :=
  match s.parser.previous with
  | Option.none => CResult.panic
  | some prev =>
    if prev.kind = TokenKind.identifier then
      match s.objects.copy_string prev.lexeme with
      | Option.none => CResult.diverge
      | some (obj, objects1) =>
        Compiler.named_variable { s with objects := objects1 } obj
    else CResult.panic

/-- `Compiler::parse_variable`. -/
def Compiler.parse_variable (s : CompilerState) (errMsg : CompError) : CResult Nat :=
  match s.parser.current with
  | some t =>
    if t.kind = TokenKind.identifier then
      match s.objects.copy_string t.lexeme with
      | Option.none => CResult.diverge
      | some (obj, objects1) =>
        match Compiler.advance { s with objects := objects1 } with
        | CResult.ok _ s2 => Compiler.identifier_constant s2 obj
        | CResult.err e s2 => CResult.err e s2
        | CResult.panic => CResult.panic
        | CResult.diverge => CResult.diverge
    else CResult.err errMsg s
  | Option.none => CResult.err errMsg s

mutual

/-- `Compiler::declaration`, src/compiler.rs lines 240-253: `var` or
statement, then panic-mode recovery for `ParserError` results. -/
def Compiler.declaration : Nat → CompilerState → CResult Unit
  | 0, _ => CResult.diverge
  | fuel + 1, s =>
    let r :=
      match Compiler.matches s (some TokenKind.kwVar) with
      | CResult.ok true s1 => Compiler.var_declaration fuel s1
      | CResult.ok false s1 => Compiler.statement fuel s1
      | CResult.err e s1 => CResult.err e s1
      | CResult.panic => CResult.panic
      | CResult.diverge => CResult.diverge
    match r with
    | CResult.err CompError.parserError s2 =>
      if s2.panicMode then
        match Compiler.synchronize fuel s2 with
        | CResult.ok _ s3 => CResult.ok () s3
        | CResult.err e s3 => CResult.err e s3
        | CResult.panic => CResult.panic
        | CResult.diverge => CResult.diverge
      else CResult.err CompError.parserError s2
    | r => r

/-- `Compiler::synchronize`, src/compiler.rs lines 210-234. -/
def Compiler.synchronize : Nat → CompilerState → CResult Unit
  | 0, _ => CResult.diverge
  | fuel + 1, s =>
    match s.parser.current with
    | Option.none => CResult.ok () ({ s with panicMode := false })
    | some cur =>
      let s := { s with panicMode := false }
      if s.parser.previous.map Token.kind = some TokenKind.semicolon then CResult.ok () s
      else
        match cur.kind with
        | TokenKind.kwClass => CResult.ok () s
        | TokenKind.kwFun => CResult.ok () s
        | TokenKind.kwVar => CResult.ok () s
        | TokenKind.kwFor => CResult.ok () s
        | TokenKind.kwIf => CResult.ok () s
        | TokenKind.kwWhile => CResult.ok () s
        | TokenKind.kwPrint => CResult.ok () s
        | TokenKind.kwReturn => CResult.ok () s
        | _ =>
          match Compiler.advance s with
          | CResult.ok _ s1 => Compiler.synchronize fuel s1
          | CResult.err e s1 => CResult.err e s1
          | CResult.panic => CResult.panic
          | CResult.diverge => CResult.diverge

/-- `Compiler::statement`. -/
def Compiler.statement : Nat → CompilerState → CResult Unit
  | 0, _ => CResult.diverge
  | fuel + 1, s =>
    match Compiler.matches s (some TokenKind.kwPrint) with
    | CResult.ok true s1 => Compiler.print_statement fuel s1
    | CResult.ok false s1 => Compiler.expression_statement fuel s1
    | CResult.err e s1 => CResult.err e s1
    | CResult.panic => CResult.panic
    | CResult.diverge => CResult.diverge

/-- `Compiler::var_declaration`. -/
def Compiler.var_declaration : Nat → CompilerState → CResult Unit
  | 0, _ => CResult.diverge
  | fuel + 1, s =>
    match Compiler.parse_variable s CompError.expectedVariableName with
    | CResult.err e s1 => CResult.err e s1
    | CResult.panic => CResult.panic
    | CResult.diverge => CResult.diverge
    | CResult.ok global s1 =>
      let r :=
        match Compiler.matches s1 (some TokenKind.equal) with
        | CResult.ok true s2 => Compiler.expression fuel s2
        | CResult.ok false s2 => CResult.ok () (Compiler.emit_byte s2 (opByte OpCode.opNil))
        | CResult.err e s2 => CResult.err e s2
        | CResult.panic => CResult.panic
        | CResult.diverge => CResult.diverge
      match r with
      | CResult.err e s2 => CResult.err e s2
      | CResult.panic => CResult.panic
      | CResult.diverge => CResult.diverge
      | CResult.ok _ s2 =>
        match Compiler.consume s2 (some TokenKind.semicolon)
          (CompError.expectedToken ";" "variable declaration") with
        | CResult.err e s3 => CResult.err e s3
        | CResult.panic => CResult.panic
        | CResult.diverge => CResult.diverge
        | CResult.ok _ s3 => CResult.ok () (Compiler.define_variable s3 global)

/-- `Compiler::print_statement`. -/
def Compiler.print_statement : Nat → CompilerState → CResult Unit
  | 0, _ => CResult.diverge
  | fuel + 1, s =>
    match Compiler.expression fuel s with
    | CResult.err e s1 => CResult.err e s1
    | CResult.panic => CResult.panic
    | CResult.diverge => CResult.diverge
    | CResult.ok _ s1 =>
      match Compiler.consume s1 (some TokenKind.semicolon)
        (CompError.expectedToken ";" "value") with
      | CResult.err e s2 => CResult.err e s2
      | CResult.panic => CResult.panic
      | CResult.diverge => CResult.diverge
      | CResult.ok _ s2 => CResult.ok () (Compiler.emit_byte s2 (opByte OpCode.print))

/-- `Compiler::expression_statement`. -/
def Compiler.expression_statement : Nat → CompilerState → CResult Unit
  | 0, _ => CResult.diverge
  | fuel + 1, s =>
    match Compiler.expression fuel s with
    | CResult.err e s1 => CResult.err e s1
    | CResult.panic => CResult.panic
    | CResult.diverge => CResult.diverge
    | CResult.ok _ s1 =>
      match Compiler.consume s1 (some TokenKind.semicolon)
        (CompError.expectedToken ";" "expression") with
      | CResult.err e s2 => CResult.err e s2
      | CResult.panic => CResult.panic
      | CResult.diverge => CResult.diverge
      | CResult.ok _ s2 => CResult.ok () (Compiler.emit_byte s2 (opByte OpCode.pop))

/-- `Compiler::expression`. -/
def Compiler.expression : Nat → CompilerState → CResult Unit
  | 0, _ => CResult.diverge
  | fuel + 1, s => Compiler.parse_precedence fuel Precedence.assignment s

/-- `Compiler::parse_precedence`, src/compiler.rs lines 398-430 (head). -/
def Compiler.parse_precedence : Nat → Precedence → CompilerState → CResult Unit
  | 0, _, _ => CResult.diverge
  | fuel + 1, prec, s =>
    match Compiler.advance s with
    | CResult.err e s1 => CResult.err e s1
    | CResult.panic => CResult.panic
    | CResult.diverge => CResult.diverge
    | CResult.ok _ s1 =>
      match s1.parser.previous.map Token.kind with
      | Option.none => CResult.err CompError.expectedExpression s1
      | some k =>
        match (get_rule k).nud with
        | Option.none => CResult.err CompError.expectedExpression s1
        | some tag =>
          match Compiler.run_nud fuel tag s1 with
          | CResult.err e s2 => CResult.err e s2
          | CResult.panic => CResult.panic
          | CResult.diverge => CResult.diverge
          | CResult.ok _ s2 => Compiler.precedence_loop fuel prec s2

/-- The infix loop of `parse_precedence`, src/compiler.rs lines 413-427. -/
def Compiler.precedence_loop : Nat → Precedence → CompilerState → CResult Unit
  | 0, _, _ => CResult.diverge
  | fuel + 1, prec, s =>
    match s.parser.current with
    | Option.none => CResult.ok () s
    | some cur =>
      if prec.toNat > (get_rule cur.kind).precedence.toNat then CResult.ok () s
      else
        match Compiler.advance s with
        | CResult.err e s1 => CResult.err e s1
        | CResult.panic => CResult.panic
        | CResult.diverge => CResult.diverge
        | CResult.ok _ s1 =>
          match s1.parser.previous.map Token.kind with
          | Option.none => CResult.panic
          | some k =>
            match (get_rule k).led with
            | Option.none => CResult.panic
            | some LedTag.binary =>
              match Compiler.binary fuel s1 with
              | CResult.err e s2 => CResult.err e s2
              | CResult.panic => CResult.panic
              | CResult.diverge => CResult.diverge
              | CResult.ok _ s2 => Compiler.precedence_loop fuel prec s2

/-- Dispatch for the prefix rules (the function pointers of the table). -/
def Compiler.run_nud : Nat → NudTag → CompilerState → CResult Unit
  | 0, _, _ => CResult.diverge
  | fuel + 1, tag, s =>
    match tag with
    | NudTag.grouping => Compiler.grouping fuel s
    | NudTag.unary => Compiler.unary fuel s
    | NudTag.number => Compiler.number s
    | NudTag.strLit => Compiler.strLit s
    | NudTag.literal => Compiler.literal s
    | NudTag.variable => Compiler.variable s

/-- `Compiler::grouping`. -/
def Compiler.grouping : Nat → CompilerState → CResult Unit
  | 0, _ => CResult.diverge
  | fuel + 1, s =>
    match Compiler.expression fuel s with
    | CResult.err e s1 => CResult.err e s1
    | CResult.panic => CResult.panic
    | CResult.diverge => CResult.diverge
    | CResult.ok _ s1 =>
      Compiler.consume s1 (some TokenKind.rightParen)
        (CompError.expectedToken ")" "expression")

/-- `Compiler::unary`. -/
def Compiler.unary : Nat → CompilerState → CResult Unit
  | 0, _ => CResult.diverge
  | fuel + 1, s =>
    match s.parser.previous.map Token.kind with
    | Option.none => CResult.panic
    | some opKind =>
      match Compiler.parse_precedence fuel Precedence.unary s with
      | CResult.err e s1 => CResult.err e s1
      | CResult.panic => CResult.panic
      | CResult.diverge => CResult.diverge
      | CResult.ok _ s1 =>
        match opKind with
        | TokenKind.minus => CResult.ok () (Compiler.emit_byte s1 (opByte OpCode.negate))
        | TokenKind.bang => CResult.ok () (Compiler.emit_byte s1 (opByte OpCode.opNot))
        | _ => CResult.panic

/-- `Compiler::binary`: parse the right operand one level tighter
(`transmute(rule.precedence + 1)`), then emit the operator. -/
def Compiler.binary : Nat → CompilerState → CResult Unit
  | 0, _ => CResult.diverge
  | fuel + 1, s =>
    match s.parser.previous.map Token.kind with
    | Option.none => CResult.panic
    | some opKind =>
      match Precedence.fromNat ((get_rule opKind).precedence.toNat + 1) with
      | Option.none => CResult.panic
      | some p =>
        match Compiler.parse_precedence fuel p s with
        | CResult.err e s1 => CResult.err e s1
        | CResult.panic => CResult.panic
        | CResult.diverge => CResult.diverge
        | CResult.ok _ s1 =>
          match opKind with
          | TokenKind.plus => CResult.ok () (Compiler.emit_byte s1 (opByte OpCode.add))
          | TokenKind.minus => CResult.ok () (Compiler.emit_byte s1 (opByte OpCode.subtract))
          | TokenKind.star => CResult.ok () (Compiler.emit_byte s1 (opByte OpCode.multiply))
          | TokenKind.slash => CResult.ok () (Compiler.emit_byte s1 (opByte OpCode.divide))
          | TokenKind.bangEqual =>
            CResult.ok () (Compiler.emit_two s1 (opByte OpCode.equal) (opByte OpCode.opNot))
          | TokenKind.equalEqual => CResult.ok () (Compiler.emit_byte s1 (opByte OpCode.equal))
          | TokenKind.greater => CResult.ok () (Compiler.emit_byte s1 (opByte OpCode.greater))
          | TokenKind.greaterEqual =>
            CResult.ok () (Compiler.emit_two s1 (opByte OpCode.less) (opByte OpCode.opNot))
          | TokenKind.less => CResult.ok () (Compiler.emit_byte s1 (opByte OpCode.less))
          | TokenKind.lessEqual =>
            CResult.ok () (Compiler.emit_two s1 (opByte OpCode.greater) (opByte OpCode.opNot))
          | _ => CResult.panic

end

/-- `Compiler::end_compiler` / `emit_return`. -/
def Compiler.end_compiler (s : CompilerState) : CompilerState :=
  Compiler.emit_byte s (opByte OpCode.opReturn)

/-- The `while !self.matches(None)? { self.declaration()?; }` loop of
`Compiler::compile`. -/
def Compiler.compile_loop : Nat → CompilerState → CResult Unit
  | 0, _ => CResult.diverge
  | fuel + 1, s =>
    match Compiler.matches s Option.none with
    | CResult.err e s1 => CResult.err e s1
    | CResult.panic => CResult.panic
    | CResult.diverge => CResult.diverge
    | CResult.ok true s1 => CResult.ok () s1
    | CResult.ok false s1 =>
      match Compiler.declaration fuel s1 with
      | CResult.err e s2 => CResult.err e s2
      | CResult.panic => CResult.panic
      | CResult.diverge => CResult.diverge
      | CResult.ok _ s2 => Compiler.compile_loop fuel s2

/-- `Compiler::compile`, src/compiler.rs lines 105-118, over a pre-scanned
stream, starting from a fresh chunk and allocator (as `Vm::interpret`
provides). -/
def compile (stream : List ScanItem) (fuel : Nat) : CResult Unit :=
  match Compiler.advance
    ⟨stream, ⟨Option.none, Option.none⟩, false, false, Chunk.empty, Allocator.new, []⟩ with
  | CResult.err e s1 => CResult.err e s1
  | CResult.panic => CResult.panic
  | CResult.diverge => CResult.diverge
  | CResult.ok _ s1 =>
    match Compiler.compile_loop fuel s1 with
    | CResult.err e s2 => CResult.err e s2
    | CResult.panic => CResult.panic
    | CResult.diverge => CResult.diverge
    | CResult.ok _ s2 => CResult.ok () (Compiler.end_compiler s2)

/-- Driver turning the scanner of src/scanner.rs into the token stream the
compiler consumes (used only on concrete terminating inputs). -/
def scan_tokens : Nat → Scanner → List ScanItem
  | 0, _ => []
  | fuel + 1, s =>
    match Scanner.scan_token (fuel + 1) s with
    | Option.none => []
    | some (_, Except.ok Option.none) => []
    | some (s1, Except.ok (some t)) => ScanItem.tok t :: scan_tokens fuel s1
    | some (s1, Except.error e) => ScanItem.err e :: scan_tokens fuel s1

/-! ### Claims C8 and C9 -/

/-- `advance` only succeeds while `had_error` is clear (its tail returns
`Err(ParserError)` whenever the flag is set, and the flag is never
cleared). -/
lemma Compiler.advance_ok (s s' : CompilerState)
    (h : Compiler.advance s = CResult.ok () s') : s'.hadError = false := by
  unfold Compiler.advance at h
  rcases hl : advance_loop s.stream s.hadError s.panicMode s.reported with
    ⟨st1, cur, had1, pan1, rep1⟩
  rw [hl] at h
  cases had1 with
  | false =>
    replace h : CResult.ok () ({ s with
        stream := st1, parser := ⟨s.parser.current, cur⟩,
        hadError := false, panicMode := pan1, reported := rep1 } : CompilerState) =
        CResult.ok () s' := h
    cases h
    rfl
  | true =>
    replace h : CResult.err CompError.parserError ({ s with
        stream := st1, parser := ⟨s.parser.current, cur⟩,
        hadError := true, panicMode := pan1, reported := rep1 } : CompilerState) =
        CResult.ok () s' := h
    cases h

lemma Compiler.matches_true_ok (s : CompilerState) (k : Option TokenKind)
    (s' : CompilerState) (h : Compiler.matches s k = CResult.ok true s') :
    s'.hadError = false := by
  unfold Compiler.matches at h
  split at h
  · cases ha : Compiler.advance s with
    | ok a s1 =>
      cases a
      rw [ha] at h
      cases h
      exact Compiler.advance_ok s _ ha
    | err e s1 => rw [ha] at h; cases h
    | panic => rw [ha] at h; cases h
    | diverge => rw [ha] at h; cases h
  · cases h

lemma Compiler.compile_loop_ok :
    ∀ (fuel : Nat) (s s' : CompilerState),
      Compiler.compile_loop fuel s = CResult.ok () s' → s'.hadError = false := by
  intro fuel
  induction fuel with
  | zero => intro s s' h; cases h
  | succ n ih =>
    intro s s' h
    unfold Compiler.compile_loop at h
    cases hm : Compiler.matches s Option.none with
    | ok b s1 =>
      rw [hm] at h
      cases b with
      | false =>
        replace h : (match Compiler.declaration n s1 with
          | CResult.err e s2 => CResult.err e s2
          | CResult.panic => CResult.panic
          | CResult.diverge => CResult.diverge
          | CResult.ok a s2 => Compiler.compile_loop n s2) = CResult.ok () s' := h
        cases hd : Compiler.declaration n s1 with
        | ok a s2 =>
          rw [hd] at h
          replace h : Compiler.compile_loop n s2 = CResult.ok () s' := h
          exact ih s2 s' h
        | err e s2 => rw [hd] at h; cases h
        | panic => rw [hd] at h; cases h
        | diverge => rw [hd] at h; cases h
      | true =>
        replace h : CResult.ok () s1 = CResult.ok () s' := h
        cases h
        exact Compiler.matches_true_ok s Option.none _ hm
    | err e s1 => rw [hm] at h; cases h
    | panic => rw [hm] at h; cases h
    | diverge => rw [hm] at h; cases h

/-- C9 (amended): `compile` returns success ONLY IF `had_error` was never
set (the flag is never cleared, so the final flag records whether it was
ever set) — but the converse of the claim fails, and panic-mode recovery
never gets to continue the parse: once a scanner error latches `had_error`,
every later `advance` (including the one inside `synchronize`) returns
`ParserError`, so compilation aborts at the first error instead of
resuming at a statement boundary.  The second conjunct shows a stream with
a leading scanner error: `compile` stops with `ParserError` while the rest
of the stream — a whole well-formed statement — is still unconsumed, and
only the first error was reported. -/
theorem compile_ok_iff_no_error_amended :
    (∀ (stream : List ScanItem) (fuel : Nat) (s' : CompilerState),
      compile stream fuel = CResult.ok () s' → s'.hadError = false) ∧
    (∃ s', compile [ScanItem.err ⟨1, ScanErrorKind.unexpectedCharacter 64⟩,
        ScanItem.tok ⟨TokenKind.semicolon, [59], 1⟩,
        ScanItem.tok ⟨TokenKind.number, [49], 1⟩] 9 =
        CResult.err CompError.parserError s' ∧
      s'.hadError = true ∧
      s'.stream = [ScanItem.tok ⟨TokenKind.number, [49], 1⟩] ∧
      s'.reported = [⟨1, ScanErrorKind.unexpectedCharacter 64⟩]) := by
  constructor
  · intro stream fuel s' h
    unfold compile at h
    cases ha : Compiler.advance
        ⟨stream, ⟨Option.none, Option.none⟩, false, false, Chunk.empty, Allocator.new, []⟩ with
    | ok a s1 =>
      rw [ha] at h
      replace h : (match Compiler.compile_loop fuel s1 with
        | CResult.err e s2 => CResult.err e s2
        | CResult.panic => CResult.panic
        | CResult.diverge => CResult.diverge
        | CResult.ok a s2 => CResult.ok () (Compiler.end_compiler s2)) =
          CResult.ok () s' := h
      cases hl : Compiler.compile_loop fuel s1 with
      | ok a2 s2 =>
        cases a2
        rw [hl] at h
        replace h : CResult.ok () (Compiler.end_compiler s2) = CResult.ok () s' := h
        cases h
        have h2 : s2.hadError = false := Compiler.compile_loop_ok fuel s1 s2 hl
        simpa [Compiler.end_compiler, Compiler.emit_byte] using h2
      | err e s2 => rw [hl] at h; cases h
      | panic => rw [hl] at h; cases h
      | diverge => rw [hl] at h; cases h
    | err e s1 => rw [ha] at h; cases h
    | panic => rw [ha] at h; cases h
    | diverge => rw [ha] at h; cases h
  · exact ⟨_, rfl, rfl, rfl, rfl⟩

/-- Witness for `compile_ok_iff_no_error_amended`: the empty stream
compiles successfully and indeed ends with `had_error` clear. -/
theorem compile_ok_iff_no_error_amended_witness :
    ∃ s', compile [] 2 = CResult.ok () s' ∧ s'.hadError = false := by
  refine ⟨_, rfl, ?_⟩
  exact compile_ok_iff_no_error_amended.1 [] 2 _ rfl

/-- C9 counterexample: `compile` can FAIL although `had_error` was never
set, refuting "compile returns success if and only if had_error was never
set".  The single-token stream of the source `1` (a number not followed by
`;`) makes `consume` return `ExpectedToken{";", after: "expression"}`,
which propagates straight out of `compile` via `?`; `had_error` (which only
scanner errors ever set) is still false in the final state. -/
theorem compile_error_without_had_error :
    ∃ s', compile [ScanItem.tok ⟨TokenKind.number, [49], 1⟩] 9 =
      CResult.err (CompError.expectedToken ";" "expression") s' ∧
      s'.hadError = false :=
  ⟨_, rfl, rfl⟩

/-- C8 (code bug): compiling the empty source `""` or the whitespace-only
source `"\n"` does NOT fail with `ExpectedExpression` — both scan to an
empty token stream, the `while !matches(None)` loop exits before any
`declaration` runs, and `compile` SUCCEEDS emitting just the trailing
`Return` opcode.  (The repository's own test
`compiler_expects_expression` in tests/integration.rs asserts
`Err(Compile(ExpectedExpression))` for exactly these two sources, so the
code contradicts its own test suite.) -/
theorem compile_empty_succeeds :
    scan_tokens 3 (Scanner.new []) = [] ∧
    scan_tokens 3 (Scanner.new [10]) = [] ∧
    ∃ s', compile [] 2 = CResult.ok () s' ∧
      s'.chunk.code = [opByte OpCode.opReturn] ∧
      s'.hadError = false ∧
      (∀ e, compile [] 2 ≠ CResult.err e s') := by
  refine ⟨rfl, rfl, _, rfl, rfl, rfl, ?_⟩
  intro e h
  cases h

end LoxV2
